import Mathlib

/-!
# Focusly: the Pomodoro timer engine and the task list

A shallow embedding of `src/components/Pomodoro.jsx` and of
`src/components/Tasks.jsx`.  The React components keep their state in hooks
(`useState`, `useRef`); here the hooks become the fields of one record and every
handler becomes a function from record to record.  In the timer the `useEffect`
with dependency list `[mode, workMinutes, breakMinutes, longBreakMinutes]` is
the function `syncEffect`, run after each handler.  In the task list every
action is the updater it passes to `setItems`, a function from the item array
to the item array, and the derived view `filtered` is a function of the items
and of the filter state.  The library method `toLowerCase`, whose Unicode case
tables are no part of the source, is a parameter of the view: what is proved of
the view holds for every function in its place.
-/

namespace Focusly

namespace Pomodoro

/-! ## Data model -/

/-- Source line 5: `const CYCLES_BEFORE_LONG_BREAK = 4`. -/
def CYCLES_BEFORE_LONG_BREAK : Nat := 4

/-- The `mode` state: the strings `"work"`, `"break"` and `"longBreak"`.
`break_` stands for `"break"`, a reserved word here. -/
inductive Mode where
  | work
  | break_
  | longBreak
  deriving DecidableEq, Repr

/-- A stored duration (`workMinutes`, `breakMinutes`, `longBreakMinutes`): a
number, or the empty string that `handleNum` stores for a cleared field. -/
inductive Minutes where
  | num (n : Int)
  | blank
  deriving DecidableEq, Repr

/-- The number a stored duration denotes inside `x * 60`: the empty string
converts to `0`. -/
def Minutes.toNumber : Minutes → Int
  | .num n => n
  | .blank => 0

/-- The three duration inputs of the settings dialog (lines 390-430). -/
inductive Category where
  | work
  | short
  | long
  deriving DecidableEq, Repr

/-- The hook state of the component (lines 115-128); `cycleCount` is the ref. -/
structure Timer where
  workMinutes : Minutes
  breakMinutes : Minutes
  longBreakMinutes : Minutes
  secondsLeft : Int
  isRunning : Bool
  mode : Mode
  cycleCount : Nat
  taskTitle : String
  deriving DecidableEq, Repr

/-- The state of a freshly mounted component (lines 115-128). -/
def mount : Timer :=
  { workMinutes := .num 25
    breakMinutes := .num 5
    longBreakMinutes := .num 15
    secondsLeft := 25 * 60
    isRunning := false
    mode := .work
    cycleCount := 0
    taskTitle := "" }

/-- Lines 132-137: `totalSeconds`, the full length of the current phase. -/
def totalSeconds (s : Timer) : Int :=
  match s.mode with
  | .work => s.workMinutes.toNumber * 60
  | .break_ => s.breakMinutes.toNumber * 60
  | .longBreak => s.longBreakMinutes.toNumber * 60

/-- The stored duration of one category. -/
def Timer.minutesOf (s : Timer) : Category → Minutes
  | .work => s.workMinutes
  | .short => s.breakMinutes
  | .long => s.longBreakMinutes

/-- The category whose duration the phase counts down. -/
def Mode.category : Mode → Category
  | .work => .work
  | .break_ => .short
  | .longBreak => .long

/-! ## Handlers -/

/-- Lines 150-165: `handleTimerEnd`. -/
def handleTimerEnd (s : Timer) : Timer :=
  if s.mode = .work then
    let c := s.cycleCount + 1
    if c % CYCLES_BEFORE_LONG_BREAK = 0 then
      { s with cycleCount := c, mode := .longBreak,
               secondsLeft := s.longBreakMinutes.toNumber * 60, isRunning := false }
    else
      { s with cycleCount := c, mode := .break_,
               secondsLeft := s.breakMinutes.toNumber * 60, isRunning := false }
  else
    { s with mode := .work, secondsLeft := s.workMinutes.toNumber * 60, isRunning := false }

/-- Lines 181-185: the effect that re-synchronises `secondsLeft`.  React runs it
after a render in which one of its four dependencies differs from the previous
render (`old` is the state before the handler, `new` the state after it). -/
def syncEffect (old new : Timer) : Timer :=
  if new.mode = old.mode ∧ new.workMinutes = old.workMinutes
      ∧ new.breakMinutes = old.breakMinutes
      ∧ new.longBreakMinutes = old.longBreakMinutes then
    new
  else
    { new with secondsLeft := totalSeconds new }

/-- Line 222: `skip`, the Skip button, with the effect that follows it. -/
def skip (s : Timer) : Timer :=
  syncEffect s (handleTimerEnd s)

/-- Lines 167-179: one firing of the one-second interval.  The interval exists
only while `isRunning`.  At `prev <= 0` the updater calls `handleTimerEnd` and
then returns `0`, which is what `secondsLeft` holds until the effect runs. -/
def tick (s : Timer) : Timer :=
  if s.isRunning then
    if s.secondsLeft ≤ 0 then
      syncEffect s { handleTimerEnd s with secondsLeft := 0 }
    else
      { s with secondsLeft := s.secondsLeft - 1 }
  else
    s

/-- Lines 214-220: `reset`, with the effect that follows it. -/
def reset (s : Timer) : Timer :=
  syncEffect s
    { s with isRunning := false, mode := .work,
             secondsLeft := s.workMinutes.toNumber * 60,
             cycleCount := 0, taskTitle := "" }

/-- Line 289: the `onClick` of a mode pill, with the effect that follows it. -/
def setMode (s : Timer) (m : Mode) : Timer :=
  syncEffect s { s with mode := m, isRunning := false }

/-- Line 322: the Start/Pause button, `setIsRunning((r) => !r)`. -/
def toggleRunning (s : Timer) : Timer :=
  { s with isRunning := !s.isRunning }

/-! ## Duration edits -/

/-- The white space that `parseInt` skips at the start of its argument. -/
def isStrWhiteSpaceChar (c : Char) : Bool :=
  decide (c.toNat ∈ [0x09, 0x0A, 0x0B, 0x0C, 0x0D, 0x20, 0xA0, 0x1680, 0x2028,
    0x2029, 0x202F, 0x205F, 0x3000, 0xFEFF]) || (0x2000 ≤ c.toNat && c.toNat ≤ 0x200A)

/-- The value of a decimal digit, `none` for any other character. -/
def digitValue (c : Char) : Option Nat :=
  if 48 ≤ c.toNat ∧ c.toNat ≤ 57 then some (c.toNat - 48) else none

/-- The number written by the longest run of decimal digits at the start of the
list, read left to right onto the accumulator. -/
def parseDigits : List Char → Nat → Nat
  | [], acc => acc
  | c :: cs, acc =>
    match digitValue c with
    | some d => parseDigits cs (acc * 10 + d)
    | none => acc

/-- The library function `parseInt(val, 10)`: skip leading white space, read one
optional sign, then the longest run of decimal digits; `none` is `NaN`.  (The
library rounds a very long digit run to a double; the rounding is monotone and
`handleNum` only compares the result with bounds below `2^53`.) -/
def parseInt (val : String) : Option Int :=
  match val.toList.dropWhile isStrWhiteSpaceChar with
  | [] => none
  | c :: rest =>
    let sign : Int := if c = '-' then -1 else 1
    let body := if c = '-' ∨ c = '+' then rest else c :: rest
    match body with
    | [] => none
    | d :: _ => if (digitValue d).isSome then some (sign * (parseDigits body 0 : Nat)) else none

/-- Lines 196-201: `handleNum(setter, min, max)` applied to an event whose
`target.value` is `val`; the result is what the category's state holds after
the call (`stored` when the setter is not called). -/
def handleNum (min max : Int) (val : String) (stored : Minutes) : Minutes :=
  if val = "" then .blank
  else
    match parseInt val with
    | some n => .num (Max.max min (Min.min max n))
    | none => stored

/-- The lower bound passed to `handleNum` for each input (lines 396, 411, 426). -/
def Category.lo : Category → Int
  | .work => 1
  | .short => 1
  | .long => 1

/-- The upper bound passed to `handleNum` for each input (lines 396, 411, 426). -/
def Category.hi : Category → Int
  | .work => 180
  | .short => 60
  | .long => 60

/-- The `onChange` handler of one duration input, before the effect. -/
def onChange (c : Category) (val : String) (s : Timer) : Timer :=
  match c with
  | .work => { s with workMinutes := handleNum 1 180 val s.workMinutes }
  | .short => { s with breakMinutes := handleNum 1 60 val s.breakMinutes }
  | .long => { s with longBreakMinutes := handleNum 1 60 val s.longBreakMinutes }

/-- A duration edit as the dialog delivers it: each input carries
`disabled={isRunning}` (lines 397, 412, 427), so no change event reaches
`handleNum` while the timer runs; otherwise the handler runs, then the effect. -/
def setDuration (s : Timer) (c : Category) (val : String) : Timer :=
  if s.isRunning then s else syncEffect s (onChange c val s)

/-- The decimal text of an integer, as the input field reports it. -/
def intLiteral (n : Int) : String := toString n

/-- The stored durations are not negative: each is a number `>= 0` or blank. -/
def NonnegDurations (s : Timer) : Prop :=
  0 ≤ s.workMinutes.toNumber ∧ 0 ≤ s.breakMinutes.toNumber ∧ 0 ≤ s.longBreakMinutes.toNumber

instance (s : Timer) : Decidable (NonnegDurations s) := by
  unfold NonnegDurations; infer_instance

/-- A stored duration is a number within `[lo, hi]`. -/
def Minutes.within (lo hi : Int) : Minutes → Prop
  | .num n => lo ≤ n ∧ n ≤ hi
  | .blank => False

instance (lo hi : Int) (m : Minutes) : Decidable (m.within lo hi) := by
  cases m <;> unfold Minutes.within <;> infer_instance

/-- The timer invariant: the three durations are numbers within the bounds of
their inputs, and `secondsLeft` lies between 0 and the full phase length. -/
def Inv (s : Timer) : Prop :=
  s.workMinutes.within 1 180 ∧ s.breakMinutes.within 1 60
    ∧ s.longBreakMinutes.within 1 60
    ∧ 0 ≤ s.secondsLeft ∧ s.secondsLeft ≤ totalSeconds s

instance (s : Timer) : Decidable (Inv s) := by
  unfold Inv; infer_instance

/-- The states the user can bring the mounted timer to: Start/Pause, the
interval firing, Skip, Reset, a mode pill, and a duration edit whose input is
the text of an integer. -/
inductive Reachable : Timer → Prop where
  | mount : Reachable mount
  | toggleRunning (s : Timer) : Reachable s → Reachable (toggleRunning s)
  | tick (s : Timer) : Reachable s → Reachable (tick s)
  | skip (s : Timer) : Reachable s → Reachable (skip s)
  | reset (s : Timer) : Reachable s → Reachable (reset s)
  | setMode (s : Timer) (m : Mode) : Reachable s → Reachable (setMode s m)
  | setDuration (s : Timer) (c : Category) (n : Int) :
      Reachable s → Reachable (setDuration s c (intLiteral n))

/-- The clamp of `handleNum`: `Math.max(min, Math.min(max, n))`. -/
def clamp (c : Category) (n : Int) : Int :=
  Max.max c.lo (Min.min c.hi n)

end Pomodoro

namespace Tasks

/-! ## Tasks: data model -/

/-- An `order` value.  Every number the code stores in `order` or forms from it
is a multiple of one half (`x + 1`, `x - 0.5`, an array index plus one), so the
value `x` is held as the integer `2 * x`. -/
structure Half where
  twice : Int
  deriving DecidableEq, Repr

/-- The integer `n` as an `order` value. -/
def Half.ofInt (n : Int) : Half := ⟨2 * n⟩

/-- The value `x - 0.5` (line 245). -/
def Half.subHalf (x : Half) : Half := ⟨x.twice - 1⟩

/-- The value `x + 1` (line 169). -/
def Half.addOne (x : Half) : Half := ⟨x.twice + 2⟩

/-- Line 10: `STATUSES`. -/
inductive Status where
  | todo
  | doing
  | done
  deriving DecidableEq, Repr

/-- Line 9: `PRIOS`. -/
inductive Priority where
  | low
  | medium
  | high
  | urgent
  deriving DecidableEq, Repr

/-- The value of `PRIOS.indexOf(p)`. -/
def Priority.index : Priority → Int
  | .low => 0
  | .medium => 1
  | .high => 2
  | .urgent => 3

/-- One entry of `subtasks`. -/
structure Subtask where
  id : String
  title : String
  done : Bool
  deriving DecidableEq, Repr

/-- A task record (lines 156-170).  `dueDate` is the empty string (`none`) or
the `YYYY-MM-DD` text of a date input, held as the number of that calendar day
counted from 1970-01-01; `createdAt` is `Date.now()` in milliseconds. -/
structure Task where
  id : String
  title : String
  notes : String
  status : Status
  priority : Priority
  starred : Bool
  dueDate : Option Int
  tags : List String
  estPoms : Nat
  donePoms : Nat
  subtasks : List Subtask
  createdAt : Int
  order : Half
  deriving DecidableEq, Repr

/-- The four keys that `sectionKey` returns. -/
inductive Section where
  | today
  | week
  | later
  | done
  deriving DecidableEq, Repr

/-- What `new Date()` and the local-time getters read from the browser: the
current instant in milliseconds since the epoch, and the offset of local time
from UTC in minutes (positive east of Greenwich). -/
structure Clock where
  now : Int
  offsetMinutes : Int
  deriving DecidableEq, Repr

/-- Milliseconds in one day. -/
def msPerDay : Int := 86400000

/-- The local calendar day (counted from 1970-01-01) of an instant: the day that
`getFullYear`, `getMonth` and `getDate` name. -/
def Clock.localDay (c : Clock) (ms : Int) : Int :=
  (ms + c.offsetMinutes * 60000) / msPerDay

/-- Line 897: `dayStart(d)`, local midnight of the local calendar day of `d`,
as an instant. -/
def dayStart (c : Clock) (ms : Int) : Int :=
  c.localDay ms * msPerDay - c.offsetMinutes * 60000

/-- The instant `new Date(t.dueDate)`: a date-only text is read as midnight
UTC of that day. -/
def parseDate (day : Int) : Int := day * msPerDay

/-- Lines 51-59: `sectionKey`. -/
def sectionKey (c : Clock) (t : Task) : Section :=
  if t.status = .done then .done
  else
    let today := dayStart c c.now
    let weekEnd := today + 7 * msPerDay
    match t.dueDate.map (fun d => dayStart c (parseDate d)) with
    | some due =>
      if due = today then .today
      else if due > today ∧ due < weekEnd then .week
      else .later
    | none => .later

/-! ## Tasks: the derived view -/

/-- The sort keys of the Sort menu (lines 355-357). -/
inductive SortBy where
  | priority
  | due
  | created
  deriving DecidableEq, Repr

/-- The filter and sort state of the component (lines 64-69).  `prioFilter` is
`none` for `"all"`; `tagFilter` is the stored string, `"all"` included. -/
structure ViewState where
  query : String
  status : Status
  prioFilter : Option Priority
  tagFilter : String
  sortBy : SortBy
  showCompleted : Bool
  deriving DecidableEq, Repr


/-- The library method `s.includes(q)`: `q` occurs in `s` as a contiguous run. -/
def includes (s q : String) : Bool :=
  decide (q.toList <:+: s.toList)

/-- Whether `s.trim()` is a non-empty string: some character is not white
space. -/
def trimTruthy (s : String) : Bool :=
  s.toList.any (fun ch => !Pomodoro.isStrWhiteSpaceChar ch)

/-- The value of `new Date(a.dueDate).getTime()`, `none` standing for the
`Infinity` of a task without due date (lines 131-132). -/
def dueTime (t : Task) : Option Int :=
  t.dueDate.map parseDate

/-- Lines 124-138: the comparator of the view, reduced to the sign of the
number it returns (`-1`, `0` or `1`), which is all `sort` reads. -/
def compareTasks (sortBy : SortBy) (a b : Task) : Int :=
  if sortBy = .priority ∧ a.priority.index ≠ b.priority.index then
    Int.sign (b.priority.index - a.priority.index)
  else if sortBy = .priority ∧ a.starred ≠ b.starred then
    Int.sign ((if b.starred then 1 else 0) - (if a.starred then 1 else 0))
  else if sortBy = .due ∧ dueTime a ≠ dueTime b then
    match dueTime a, dueTime b with
    | some da, some db => Int.sign (da - db)
    | some _, none => -1
    | none, some _ => 1
    | none, none => 0
  else if b.createdAt ≠ a.createdAt then
    Int.sign (b.createdAt - a.createdAt)
  else
    Int.sign (a.order.twice - b.order.twice)

/-- The library method `sort` with the view comparator: the stable sort. -/
def sortTasks (sortBy : SortBy) (l : List Task) : List Task :=
  l.insertionSort (fun a b => compareTasks sortBy a b ≤ 0)

/-- Lines 102-121: the filters of `filtered`, before the sort. The library
method `toLowerCase` of lines 113-117 is the parameter `toLowerCase`: the view is
defined, and its properties are proved, for every function from strings to
strings in its place, the Unicode lower-casing of the library among them. -/
def filterStage (toLowerCase : String → String) (v : ViewState) (items : List Task) :
    List Task :=
  let list := ((items.filter (fun t =>
      if v.status = .done then t.status = .done else t.status ≠ .done)).filter (fun t =>
      if v.status = .doing then t.status = .doing else true)).filter (fun t =>
      if v.status = .todo then t.status = .todo else true)
  let list := match v.prioFilter with
    | some p => list.filter (fun t => t.priority = p)
    | none => list
  let list := if v.tagFilter ≠ "all" then list.filter (fun t => t.tags.contains v.tagFilter)
    else list
  let list := if trimTruthy v.query then
      let q := toLowerCase v.query
      list.filter (fun t =>
        includes (toLowerCase t.title) q || includes (toLowerCase t.notes) q
          || t.tags.any (fun tag => includes (toLowerCase tag) q))
    else list
  if !v.showCompleted ∧ v.status ≠ .done then
    list.filter (fun t => t.status ≠ .done)
  else list

/-- Lines 101-141: `filtered`, the derived view: the filters, then the sort. -/
def filtered (toLowerCase : String → String) (v : ViewState) (items : List Task) :
    List Task :=
  sortTasks v.sortBy (filterStage toLowerCase v items)

/-- The filter state with one status tab selected and nothing else narrowing
the view: empty search, priority filter `all`, tag filter `all`. -/
def statusTab (status : Status) (sortBy : SortBy) (showCompleted : Bool) : ViewState :=
  { query := "", status := status, prioFilter := none, tagFilter := "all",
    sortBy := sortBy, showCompleted := showCompleted }

/-! ## Tasks: drag and drop -/

/-- Line 231: `e.dataTransfer.getData("text/plain") || dragFromId.current`. -/
def fromId (data : String) (dragFromId : Option String) : Option String :=
  if data ≠ "" then some data else dragFromId

/-- Lines 252-255: the final `map((t, i) => ...)` over the sorted array, `i`
counting from the given start. -/
def renumberFrom (c : Clock) (sec : Section) : Nat → List Task → List Task
  | _, [] => []
  | i, t :: ts =>
    (if sectionKey c t ≠ sec then t else { t with order := Half.ofInt (i + 1) })
      :: renumberFrom c sec (i + 1) ts

/-- Line 251: the comparator `(x, y) => x.order - y.order` does not put `x` after
`y`. -/
def orderLE (x y : Task) : Prop := x.order.twice ≤ y.order.twice

instance : DecidableRel orderLE :=
  fun x y => inferInstanceAs (Decidable (x.order.twice ≤ y.order.twice))

/-- Line 245: the function mapped over the array, which gives the task with id
`tid` the order `o` and keeps every other task. -/
def setOrder (tid : String) (o : Half) (t : Task) : Task :=
  if t.id = tid then { t with order := o } else t

/-- Lines 236-258: the updater that `onDrop` passes to `setItems`. -/
def reorder (c : Clock) (fromTid overTid : String) (prev : List Task) : List Task :=
  match prev.find? (fun t => t.id = fromTid), prev.find? (fun t => t.id = overTid) with
  | some a, some b =>
    if sectionKey c a ≠ sectionKey c b then prev
    else
      let updated := prev.map (setOrder a.id b.order.subHalf)
      let sec := sectionKey c a
      renumberFrom c sec 0 (updated.insertionSort orderLE)
  | _, _ => prev

/-- Lines 229-259: `onDrop(overTid)`, given the text of the drag data and the
content of the `dragFromId` ref. -/
def onDrop (c : Clock) (overTid : String) (data : String) (dragFromId : Option String)
    (prev : List Task) : List Task :=
  match fromId data dragFromId with
  | none => prev
  | some f => if f = "" ∨ f = overTid then prev else reorder c f overTid prev

/-- A whole gesture: `onDragStart(fromTid)` stores the id in the drag data and
in the ref (lines 219-223), then the card is dropped on `overTid`. -/
def dragDrop (c : Clock) (fromTid overTid : String) (prev : List Task) : List Task :=
  onDrop c overTid fromTid (some fromTid) prev

/-- The tasks of one section in ascending `order`, ties in array sequence, as
their ids. -/
def sectionSeq (c : Clock) (sec : Section) (items : List Task) : List String :=
  ((items.filter (fun t => sectionKey c t = sec)).insertionSort orderLE).map (fun t => t.id)

/-! ## Tasks: actions -/

/-- The library method `trim`: the string without its leading and trailing
white space. -/
def trim (s : String) : String :=
  ⟨((s.toList.dropWhile Pomodoro.isStrWhiteSpaceChar).reverse.dropWhile
      Pomodoro.isStrWhiteSpaceChar).reverse⟩

/-- The library method `split(",")` on the characters of a string. -/
def splitOnComma : List Char → List (List Char)
  | [] => [[]]
  | ch :: cs =>
    if ch = ',' then [] :: splitOnComma cs
    else
      match splitOnComma cs with
      | [] => [[ch]]
      | h :: t => (ch :: h) :: t

/-- Lines 881-883: `splitTags`. -/
def splitTags (s : String) : List String :=
  ((splitOnComma s.toList).map (fun part => trim ⟨part⟩)).filter (fun x => x ≠ "")

/-- The quick-add form (lines 73-76): `title`, `newPrio`, `newDue`, `newTags`. -/
structure QuickAdd where
  title : String
  newPrio : Priority
  newDue : Option Int
  newTags : String
  deriving DecidableEq, Repr

/-- Lines 151-174: `addTask`, as the new item array.  `newId` is the value of
`id()` and `now` the value of `Date.now()`. -/
def addTask (form : QuickAdd) (newId : String) (now : Int) (prev : List Task) : List Task :=
  let t := trim form.title
  if t = "" then prev
  else
    { id := newId
      title := t
      notes := ""
      status := .todo
      priority := form.newPrio
      starred := false
      dueDate := form.newDue
      tags := splitTags form.newTags
      estPoms := 1
      donePoms := 0
      subtasks := []
      createdAt := now
      order := (match prev.head? with
        | some first => first.order
        | none => Half.ofInt 0).addOne } :: prev

/-- Lines 176-177: `toggleStar`. -/
def toggleStar (tid : String) (prev : List Task) : List Task :=
  prev.map (fun t => if t.id = tid then { t with starred := !t.starred } else t)

/-- Lines 179-180: `changeStatus`. -/
def changeStatus (tid : String) (next : Status) (prev : List Task) : List Task :=
  prev.map (fun t => if t.id = tid then { t with status := next } else t)

/-- Lines 182-183: `toggleDone`. -/
def toggleDone (tid : String) (prev : List Task) : List Task :=
  prev.map (fun t =>
    if t.id = tid then { t with status := if t.status = .done then .todo else .done } else t)

/-- Lines 185-186: `deleteTask`. -/
def deleteTask (tid : String) (prev : List Task) : List Task :=
  prev.filter (fun t => t.id ≠ tid)

/-- Lines 188-189: `saveEdit`.  The draft starts as a copy of a task and so
carries every field; in `{ ...t, ...draft }` each field is the draft's. -/
def saveEdit (draft : Task) (prev : List Task) : List Task :=
  prev.map (fun t =>
    if t.id = draft.id then
      { t with id := draft.id, title := draft.title, notes := draft.notes,
               status := draft.status, priority := draft.priority,
               starred := draft.starred, dueDate := draft.dueDate, tags := draft.tags,
               estPoms := draft.estPoms, donePoms := draft.donePoms,
               subtasks := draft.subtasks, createdAt := draft.createdAt,
               order := draft.order }
    else t)

/-- Lines 191-192: `markAllDone`. -/
def markAllDone (prev : List Task) : List Task :=
  prev.map (fun t => { t with status := .done })

/-- Lines 194-195: `clearDone`. -/
def clearDone (prev : List Task) : List Task :=
  prev.filter (fun t => t.status ≠ .done)

/-- Lines 198-203: `toggleSubtask`. -/
def toggleSubtask (tid sid : String) (prev : List Task) : List Task :=
  prev.map (fun t =>
    if t.id ≠ tid then t
    else { t with subtasks :=
      t.subtasks.map (fun s => if s.id = sid then { s with done := !s.done } else s) })

/-- Lines 205-210: `addSubtask`; `newId` is the value of `id()`. -/
def addSubtask (tid title newId : String) (prev : List Task) : List Task :=
  prev.map (fun t =>
    if t.id ≠ tid then t
    else { t with subtasks :=
      t.subtasks ++ [{ id := newId, title := trim title, done := false }] })

/-- Lines 212-216: `deleteSubtask`. -/
def deleteSubtask (tid sid : String) (prev : List Task) : List Task :=
  prev.map (fun t =>
    if t.id ≠ tid then t
    else { t with subtasks := t.subtasks.filter (fun s => s.id ≠ sid) })

/-- What an action aimed at the task `tid` must leave alone: the ids stay in
place, and every task with another id is the same record at the same index. -/
def KeepsOthers (tid : String) (prev result : List Task) : Prop :=
  result.map (fun t => t.id) = prev.map (fun t => t.id)
    ∧ ∀ i (h1 : i < prev.length) (h2 : i < result.length),
        prev[i].id ≠ tid → result[i] = prev[i]

/-! ## Tasks: the renumbering of the specification -/

/-- The section-scoped renumbering, following the specification: after `a`
has received the order `b.order - 0.5`, the tasks of the section are collected
and sorted by ascending order, and in that sequence they receive the orders
`1..n`; the tasks outside the section are untouched. -/
def renumberScoped (c : Clock) (sec : Section) (updated : List Task) : List Task :=
  updated.map (fun t =>
    if sectionKey c t = sec then
      { t with order := Half.ofInt ((sectionSeq c sec updated).indexOf t.id + 1) }
    else t)

/-- The drop of `a` onto `b` with the section-scoped renumbering. -/
def dropScoped (c : Clock) (a b : Task) (prev : List Task) : List Task :=
  renumberScoped c (sectionKey c a) (prev.map (setOrder a.id b.order.subHalf))

/-! ## Tasks: the comparator as a lexicographic order -/

/-- The sign of the first differing entry of two integer rows, `0` when there
is none. -/
def lexSign : List Int → List Int → Int
  | x :: xs, y :: ys => if x ≠ y then Int.sign (x - y) else lexSign xs ys
  | _, _ => 0

/-- The row of numbers by which the comparator ranks a task under each sort
key; a missing due date is the row entry `1, 0`, after every date `0, time`. -/
def sortKeys (sortBy : SortBy) (t : Task) : List Int :=
  match sortBy with
  | .priority =>
    [-t.priority.index, -(if t.starred then 1 else 0), -t.createdAt, t.order.twice]
  | .due =>
    [(match dueTime t with | some _ => 0 | none => 1),
     (match dueTime t with | some d => d | none => 0), -t.createdAt, t.order.twice]
  | .created => [-t.createdAt, t.order.twice]

/-! ## Tasks: sample data -/

/-- A task as quick-add stores it (medium priority, no star, no tags), with the
given id, status, due day, creation time and order. -/
def sampleTask (id : String) (status : Status) (dueDate : Option Int) (createdAt : Int)
    (order : Int) : Task :=
  { id := id, title := id, notes := "", status := status, priority := .medium,
    starred := false, dueDate := dueDate, tags := [], estPoms := 1, donePoms := 0,
    subtasks := [], createdAt := createdAt, order := Half.ofInt order }

/-- The library method `toLowerCase` on text of ASCII characters, which is what
the sample tasks and sample queries hold: `A` to `Z` become `a` to `z` and
every other ASCII character is kept. It stands for the parameter `toLowerCase`
of the view in the sample evaluations only. -/
def asciiLower (s : String) : String :=
  ⟨s.toList.map Char.toLower⟩

/-- Noon of 2024-04-10 (day 19823) in a browser on UTC. -/
def noonUTC : Clock :=
  { now := 19823 * 86400000 + 12 * 3600000, offsetMinutes := 0 }

/-- Noon of 2024-04-10 (day 19823) in a browser five hours west of UTC: the
instant 17:00 UTC. -/
def noonWest : Clock :=
  { now := 19823 * 86400000 + 17 * 3600000, offsetMinutes := -300 }

end Tasks

namespace Pomodoro

/-! ## Expiry and Skip -/

/-- After `handleTimerEnd` the effect has nothing left to change: the handler
itself stored the full length of the phase it entered. -/
theorem syncEffect_handleTimerEnd (s : Timer) :
    syncEffect s (handleTimerEnd s) = handleTimerEnd s := by
  unfold syncEffect handleTimerEnd
  by_cases hm : s.mode = .work
  · by_cases hc : (s.cycleCount + 1) % CYCLES_BEFORE_LONG_BREAK = 0 <;>
      simp [hm, hc, totalSeconds]
  · simp [hm, totalSeconds]

/-- C1: from the Work phase, `handleTimerEnd` (and Skip, which is the same
handler followed by the effect) adds exactly 1 to the cycle count and stops the
timer; the new phase is the long break with `longBreakMinutes * 60` seconds
exactly when the incremented count is a multiple of 4, and otherwise the short
break with `breakMinutes * 60` seconds.  The three durations are kept. -/
theorem handleTimerEnd_work (s : Timer) (h : s.mode = .work) :
    (handleTimerEnd s).cycleCount = s.cycleCount + 1
    ∧ (handleTimerEnd s).isRunning = false
    ∧ (((handleTimerEnd s).mode = .longBreak
          ∧ (handleTimerEnd s).secondsLeft = s.longBreakMinutes.toNumber * 60)
        ↔ (s.cycleCount + 1) % 4 = 0)
    ∧ (((handleTimerEnd s).mode = .break_
          ∧ (handleTimerEnd s).secondsLeft = s.breakMinutes.toNumber * 60)
        ↔ (s.cycleCount + 1) % 4 ≠ 0)
    ∧ (handleTimerEnd s).workMinutes = s.workMinutes
    ∧ (handleTimerEnd s).breakMinutes = s.breakMinutes
    ∧ (handleTimerEnd s).longBreakMinutes = s.longBreakMinutes
    ∧ skip s = handleTimerEnd s := by
  refine ⟨?_, ?_, ?_, ?_, ?_, ?_, ?_, syncEffect_handleTimerEnd s⟩ <;>
    by_cases hc : (s.cycleCount + 1) % 4 = 0 <;>
    simp [handleTimerEnd, h, hc, CYCLES_BEFORE_LONG_BREAK]

/-- Witness for C1: the first expiry after mounting. -/
theorem handleTimerEnd_work_witness :
    (handleTimerEnd mount).cycleCount = mount.cycleCount + 1
    ∧ (handleTimerEnd mount).isRunning = false
    ∧ (((handleTimerEnd mount).mode = .longBreak
          ∧ (handleTimerEnd mount).secondsLeft = mount.longBreakMinutes.toNumber * 60)
        ↔ (mount.cycleCount + 1) % 4 = 0)
    ∧ (((handleTimerEnd mount).mode = .break_
          ∧ (handleTimerEnd mount).secondsLeft = mount.breakMinutes.toNumber * 60)
        ↔ (mount.cycleCount + 1) % 4 ≠ 0)
    ∧ (handleTimerEnd mount).workMinutes = mount.workMinutes
    ∧ (handleTimerEnd mount).breakMinutes = mount.breakMinutes
    ∧ (handleTimerEnd mount).longBreakMinutes = mount.longBreakMinutes
    ∧ skip mount = handleTimerEnd mount :=
  handleTimerEnd_work mount rfl

/-- C2, as stated, fails: four Skips from the mounted state do not reach the
long break with 4 completed cycles and 900 seconds. -/
theorem skip_four_not_longBreak :
    ¬ ((skip^[4] mount).cycleCount = 4 ∧ (skip^[4] mount).mode = .longBreak
        ∧ (skip^[4] mount).secondsLeft = 900) := by
  decide

/-- C2, amended: Skip alternates work and break, so four Skips from the mounted
state complete 2 cycles and end in Work with 1500 seconds; the long break with
4 completed cycles and 900 seconds is reached by the seventh Skip. -/
theorem skip_four_and_seven :
    ((skip^[4] mount).cycleCount = 2 ∧ (skip^[4] mount).mode = .work
        ∧ (skip^[4] mount).secondsLeft = 1500)
    ∧ ((skip^[7] mount).cycleCount = 4 ∧ (skip^[7] mount).mode = .longBreak
        ∧ (skip^[7] mount).secondsLeft = 900) := by
  decide

/-- C3: from either break, `handleTimerEnd` and Skip enter Work with
`workMinutes * 60` seconds, stop the timer and keep the cycle count and the
three durations. -/
theorem handleTimerEnd_break (s : Timer) (h : s.mode = .break_ ∨ s.mode = .longBreak) :
    (handleTimerEnd s).mode = .work
    ∧ (handleTimerEnd s).secondsLeft = s.workMinutes.toNumber * 60
    ∧ (handleTimerEnd s).isRunning = false
    ∧ (handleTimerEnd s).cycleCount = s.cycleCount
    ∧ (handleTimerEnd s).workMinutes = s.workMinutes
    ∧ (handleTimerEnd s).breakMinutes = s.breakMinutes
    ∧ (handleTimerEnd s).longBreakMinutes = s.longBreakMinutes
    ∧ skip s = handleTimerEnd s := by
  have hm : s.mode ≠ .work := by
    rcases h with h | h <;> simp [h]
  refine ⟨?_, ?_, ?_, ?_, ?_, ?_, ?_, syncEffect_handleTimerEnd s⟩ <;>
    simp [handleTimerEnd, hm]

/-- Witness for C3: the expiry of the first short break. -/
theorem handleTimerEnd_break_witness :
    (handleTimerEnd (skip mount)).mode = .work
    ∧ (handleTimerEnd (skip mount)).secondsLeft = (skip mount).workMinutes.toNumber * 60
    ∧ (handleTimerEnd (skip mount)).isRunning = false
    ∧ (handleTimerEnd (skip mount)).cycleCount = (skip mount).cycleCount
    ∧ (handleTimerEnd (skip mount)).workMinutes = (skip mount).workMinutes
    ∧ (handleTimerEnd (skip mount)).breakMinutes = (skip mount).breakMinutes
    ∧ (handleTimerEnd (skip mount)).longBreakMinutes = (skip mount).longBreakMinutes
    ∧ skip (skip mount) = handleTimerEnd (skip mount) :=
  handleTimerEnd_break (skip mount) (Or.inl (by decide))

/-! ## Tick, Reset and the mode pills -/

/-- C4: while running with `secondsLeft = r >= 0`: for `r > 0` the tick stores
`r - 1` and changes no other field; for `r = 0` the tick ends in exactly the
state that Skip and `handleTimerEnd` produce; and (the stored durations not
being negative) the new `secondsLeft` is never negative. -/
theorem tick_running (s : Timer) (hr : s.isRunning = true) (h0 : 0 ≤ s.secondsLeft) :
    (0 < s.secondsLeft → tick s = { s with secondsLeft := s.secondsLeft - 1 })
    ∧ (s.secondsLeft = 0 → tick s = skip s ∧ tick s = handleTimerEnd s)
    ∧ (NonnegDurations s → 0 ≤ (tick s).secondsLeft) := by
  refine ⟨?_, ?_, ?_⟩
  · intro hpos
    simp [tick, hr, not_le.mpr hpos]
  · intro hz
    have key : tick s = handleTimerEnd s := by
      unfold tick syncEffect handleTimerEnd
      by_cases hm : s.mode = .work
      · by_cases hc : (s.cycleCount + 1) % CYCLES_BEFORE_LONG_BREAK = 0 <;>
          simp [hr, hz, hm, hc, totalSeconds]
      · simp [hr, hz, hm, Ne.symm hm, totalSeconds]
    exact ⟨by rw [key]; exact (syncEffect_handleTimerEnd s).symm, key⟩
  · intro hd
    obtain ⟨hw, hb, hl⟩ := hd
    rcases lt_or_eq_of_le h0 with hpos | hz
    · simp [tick, hr, not_le.mpr hpos]
      omega
    · have key : tick s = handleTimerEnd s := by
        unfold tick syncEffect handleTimerEnd
        by_cases hm : s.mode = .work
        · by_cases hc : (s.cycleCount + 1) % CYCLES_BEFORE_LONG_BREAK = 0 <;>
            simp [hr, ← hz, hm, hc, totalSeconds]
        · simp [hr, ← hz, hm, Ne.symm hm, totalSeconds]
      rw [key]
      unfold handleTimerEnd
      by_cases hm : s.mode = .work
      · by_cases hc : (s.cycleCount + 1) % CYCLES_BEFORE_LONG_BREAK = 0 <;>
          simp [hm, hc] <;> omega
      · simp [hm]
        omega

/-- Witness for C4: the first tick after Start. -/
theorem tick_running_witness :
    (0 < (toggleRunning mount).secondsLeft →
        tick (toggleRunning mount)
          = { toggleRunning mount with secondsLeft := (toggleRunning mount).secondsLeft - 1 })
    ∧ ((toggleRunning mount).secondsLeft = 0 →
        tick (toggleRunning mount) = skip (toggleRunning mount)
          ∧ tick (toggleRunning mount) = handleTimerEnd (toggleRunning mount))
    ∧ (NonnegDurations (toggleRunning mount) → 0 ≤ (tick (toggleRunning mount)).secondsLeft) :=
  tick_running (toggleRunning mount) (by decide) (by decide)

/-- C5: whatever the state before, Reset leaves phase Work, `workMinutes * 60`
seconds, a stopped timer, zero completed cycles and an empty task title, and
keeps the three durations. -/
theorem reset_spec (s : Timer) :
    (reset s).mode = .work
    ∧ (reset s).secondsLeft = s.workMinutes.toNumber * 60
    ∧ (reset s).isRunning = false
    ∧ (reset s).cycleCount = 0
    ∧ (reset s).taskTitle = ""
    ∧ (reset s).workMinutes = s.workMinutes
    ∧ (reset s).breakMinutes = s.breakMinutes
    ∧ (reset s).longBreakMinutes = s.longBreakMinutes := by
  unfold reset syncEffect
  by_cases hm : s.mode = .work
  · simp [hm]
  · simp [totalSeconds, Ne.symm hm]

/-- C6, as stated, fails: a timer running in Work with 1000 of its 1500 seconds
left, whose Work pill is clicked, keeps the 1000 seconds. -/
theorem setMode_same_keeps_seconds :
    ¬ ((setMode { mount with secondsLeft := 1000, isRunning := true } .work).secondsLeft
        = ({ mount with secondsLeft := 1000, isRunning := true } : Timer).workMinutes.toNumber * 60) := by
  decide

/-- C6, amended: a mode pill sets the phase, stops the timer and keeps the
cycle count; `secondsLeft` becomes the full length of the chosen phase when the
chosen phase differs from the current one, and is kept when it is the current
phase. -/
theorem setMode_spec (s : Timer) (p : Mode) :
    (setMode s p).mode = p
    ∧ (setMode s p).isRunning = false
    ∧ (setMode s p).cycleCount = s.cycleCount
    ∧ (setMode s p).secondsLeft
        = if p = s.mode then s.secondsLeft else (s.minutesOf p.category).toNumber * 60 := by
  unfold setMode syncEffect
  by_cases hm : p = s.mode
  · simp [hm]
  · cases p <;> simp [hm, totalSeconds, Timer.minutesOf, Mode.category]

/-! ## Reading the duration inputs -/

/-- The digit characters of the number printer are read back as their value. -/
theorem digitValue_digitChar (k : Nat) (hk : k < 10) :
    digitValue (Nat.digitChar k) = some k := by
  interval_cases k <;> decide

/-- A decimal digit is neither white space nor a sign. -/
theorem digit_not_space (c : Char) (h : (digitValue c).isSome = true) :
    isStrWhiteSpaceChar c = false ∧ c ≠ '-' ∧ c ≠ '+' := by
  unfold digitValue at h
  by_cases hc : 48 ≤ c.toNat ∧ c.toNat ≤ 57
  · refine ⟨?_, ?_, ?_⟩
    · unfold isStrWhiteSpaceChar
      obtain ⟨h1, h2⟩ := hc
      generalize c.toNat = k at h1 h2
      interval_cases k <;> decide
    · rintro rfl; revert hc; decide
    · rintro rfl; revert hc; decide
  · simp [hc] at h

/-- Reading one more digit at the end multiplies by ten and adds it. -/
theorem parseDigits_snoc (L : List Char) (d : Char) (k : Nat) (hd : digitValue d = some k)
    (hL : ∀ c ∈ L, (digitValue c).isSome = true) (a : Nat) :
    parseDigits (L ++ [d]) a = parseDigits L a * 10 + k := by
  induction L generalizing a with
  | nil => simp [parseDigits, hd]
  | cons c L ih =>
    have hc := hL c (List.mem_cons_self _ _)
    obtain ⟨v, hv⟩ := Option.isSome_iff_exists.mp hc
    have := ih (fun x hx => hL x (List.mem_cons_of_mem _ hx)) (a * 10 + v)
    simpa [parseDigits, hv] using this

/-- The number printer emits a non-empty run of digits that reads back as `n`. -/
theorem toDigitsCore_spec (fuel : Nat) : ∀ (n : Nat) (ds : List Char), n < fuel →
    ∃ L : List Char, Nat.toDigitsCore 10 fuel n ds = L ++ ds
      ∧ (∀ c ∈ L, (digitValue c).isSome = true)
      ∧ L ≠ []
      ∧ parseDigits L 0 = n := by
  induction fuel with
  | zero => intro n ds h; omega
  | succ f ih =>
    intro n ds h
    have hd : digitValue (Nat.digitChar (n % 10)) = some (n % 10) :=
      digitValue_digitChar _ (Nat.mod_lt _ (by norm_num))
    by_cases hq : n / 10 = 0
    · refine ⟨[Nat.digitChar (n % 10)], ?_, ?_, by simp, ?_⟩
      · simp [Nat.toDigitsCore, hq]
      · intro c hc
        simp only [List.mem_singleton] at hc
        simp [hc, hd]
      · simp [parseDigits, hd]
        omega
    · obtain ⟨L, hL, hdig, hne, hval⟩ := ih (n / 10) (Nat.digitChar (n % 10) :: ds) (by omega)
      refine ⟨L ++ [Nat.digitChar (n % 10)], ?_, ?_, by simp, ?_⟩
      · simp [Nat.toDigitsCore, hq, hL]
      · intro c hc
        rcases List.mem_append.mp hc with h1 | h1
        · exact hdig c h1
        · simp only [List.mem_singleton] at h1
          simp [h1, hd]
      · rw [parseDigits_snoc L _ _ hd hdig 0, hval]
        omega

/-- The decimal text of a natural number starts with a digit and reads back. -/
theorem repr_spec (m : Nat) :
    ∃ (c : Char) (r : List Char), (Nat.repr m).toList = c :: r
      ∧ (digitValue c).isSome = true
      ∧ parseDigits (c :: r) 0 = m := by
  obtain ⟨L, hL, hdig, hne, hval⟩ := toDigitsCore_spec (m + 1) m [] (by omega)
  cases L with
  | nil => exact absurd rfl hne
  | cons c r =>
    refine ⟨c, r, ?_, hdig c (List.mem_cons_self _ _), hval⟩
    simp [Nat.repr, Nat.toDigits, hL, List.asString]

/-- The function `parseInt` reads the decimal text of every integer back as that integer. -/
theorem parseInt_intLiteral (n : Int) : parseInt (intLiteral n) = some n := by
  cases n with
  | ofNat m =>
    obtain ⟨c, r, hrepr, hc, hval⟩ := repr_spec m
    obtain ⟨hsp, hminus, hplus⟩ := digit_not_space c hc
    have : (intLiteral (Int.ofNat m)).toList = c :: r := hrepr
    unfold parseInt
    rw [this]
    simp [List.dropWhile, hsp, hminus, hplus, hc, hval]
  | negSucc m =>
    obtain ⟨c, r, hrepr, hc, hval⟩ := repr_spec (m + 1)
    have : (intLiteral (Int.negSucc m)).toList = '-' :: c :: r := by
      show ("-" ++ Nat.repr (m + 1)).toList = _
      have h2 : (Nat.repr (m + 1)).data = c :: r := hrepr
      simp [h2]
    unfold parseInt
    rw [this]
    have hs : isStrWhiteSpaceChar '-' = false := by decide
    simp [List.dropWhile, hs, hc, hval]
    rw [Int.negSucc_eq]
    omega

/-- The decimal text of an integer is never the empty string. -/
theorem intLiteral_ne_empty (n : Int) : intLiteral n ≠ "" := by
  intro h
  have h1 := parseInt_intLiteral n
  rw [h] at h1
  have h2 : parseInt "" = none := by decide
  rw [h2] at h1
  exact Option.noConfusion h1

/-- On the decimal text of `n`, `handleNum` stores the clamp of `n`. -/
theorem handleNum_intLiteral (lo hi : Int) (n : Int) (stored : Minutes) :
    handleNum lo hi (intLiteral n) stored = .num (Max.max lo (Min.min hi n)) := by
  simp [handleNum, intLiteral_ne_empty, parseInt_intLiteral]

/-- The field that `onChange` writes, in terms of `handleNum`. -/
theorem onChange_minutesOf (c : Category) (val : String) (s : Timer) :
    (onChange c val s).minutesOf c = handleNum c.lo c.hi val (s.minutesOf c) := by
  cases c <;> rfl

/-- C8, as stated, fails: the empty input is not left without effect; it
replaces the stored 25 work minutes. -/
theorem onChange_empty_changes :
    ¬ ((onChange .work "" mount).minutesOf .work = mount.minutesOf .work) := by
  decide

/-- C8, amended: on the decimal text of an integer `n` the stored duration
becomes `max(lo, min(hi, n))`; on the empty input it becomes the blank value (the
empty string, which counts as 0 minutes); on a non-empty input that `parseInt`
cannot read the stored duration is kept. -/
theorem onChange_stored (c : Category) (s : Timer) :
    (∀ n : Int, (onChange c (intLiteral n) s).minutesOf c
        = .num (Max.max c.lo (Min.min c.hi n)))
    ∧ (onChange c "" s).minutesOf c = .blank
    ∧ (∀ val : String, val ≠ "" → parseInt val = none →
        (onChange c val s).minutesOf c = s.minutesOf c) := by
  refine ⟨?_, ?_, ?_⟩
  · intro n
    rw [onChange_minutesOf, handleNum_intLiteral]
  · rw [onChange_minutesOf]
    simp [handleNum]
  · intro val hne hnan
    rw [onChange_minutesOf]
    simp [handleNum, hne, hnan]

/-- Witness for C8: the input `.5` has no leading digit and keeps the stored
25 work minutes; the text `250` is clamped to 180. -/
theorem onChange_stored_witness :
    (onChange .work ".5" mount).minutesOf .work = mount.minutesOf .work
    ∧ (onChange .work (intLiteral 250) mount).minutesOf .work = .num 180 :=
  ⟨(onChange_stored .work mount).2.2 ".5" (by decide) (by decide),
   (onChange_stored .work mount).1 250⟩

/-- C9, as stated, fails: a timer paused in Work with 1000 of its 1500 seconds
left, whose Work field receives the text `25` again, keeps the 1000 seconds. -/
theorem setDuration_same_keeps_seconds :
    ¬ ((setDuration { mount with secondsLeft := 1000 } .work (intLiteral 25)).secondsLeft
        = clamp .work 25 * 60) := by
  decide

/-- C9, amended: while the timer is not running, an edit of the current phase
to the text of `n` stores `clamp n`; `secondsLeft` becomes `clamp n * 60` when
`clamp n` differs from the duration stored before, and is kept when it is the
same value. -/
theorem setDuration_current (s : Timer) (h : s.isRunning = false) (n : Int) :
    (setDuration s s.mode.category (intLiteral n)).minutesOf s.mode.category
        = .num (clamp s.mode.category n)
    ∧ (setDuration s s.mode.category (intLiteral n)).secondsLeft
        = if Minutes.num (clamp s.mode.category n) = s.minutesOf s.mode.category
          then s.secondsLeft else clamp s.mode.category n * 60 := by
  obtain ⟨w, b, l, sec, run, mode, cyc, title⟩ := s
  simp only at h
  subst h
  cases mode <;>
    simp only [setDuration, onChange, syncEffect, handleNum_intLiteral, Mode.category,
      Timer.minutesOf, clamp, Category.lo, Category.hi, totalSeconds] <;>
    split_ifs <;> simp_all [Minutes.toNumber]

/-- Witness for C9: the mounted timer, Work field edited to `30`. -/
theorem setDuration_current_witness :
    (setDuration mount mount.mode.category (intLiteral 30)).minutesOf mount.mode.category
        = .num (clamp mount.mode.category 30)
    ∧ (setDuration mount mount.mode.category (intLiteral 30)).secondsLeft
        = if Minutes.num (clamp mount.mode.category 30) = mount.minutesOf mount.mode.category
          then mount.secondsLeft else clamp mount.mode.category 30 * 60 :=
  setDuration_current mount rfl 30

/-- C10: while the timer runs the duration inputs are disabled, so a duration
edit of any category with any input leaves the state as it is: the three
durations and `secondsLeft` are unchanged. -/
theorem setDuration_running (s : Timer) (h : s.isRunning = true) (c : Category)
    (val : String) :
    setDuration s c val = s
    ∧ (setDuration s c val).workMinutes = s.workMinutes
    ∧ (setDuration s c val).breakMinutes = s.breakMinutes
    ∧ (setDuration s c val).longBreakMinutes = s.longBreakMinutes
    ∧ (setDuration s c val).secondsLeft = s.secondsLeft := by
  have key : setDuration s c val = s := by simp [setDuration, h]
  simp [key]

/-- Witness for C10: the started timer, Work field receiving `50`. -/
theorem setDuration_running_witness :
    setDuration (toggleRunning mount) .work "50" = toggleRunning mount
    ∧ (setDuration (toggleRunning mount) .work "50").workMinutes
        = (toggleRunning mount).workMinutes
    ∧ (setDuration (toggleRunning mount) .work "50").breakMinutes
        = (toggleRunning mount).breakMinutes
    ∧ (setDuration (toggleRunning mount) .work "50").longBreakMinutes
        = (toggleRunning mount).longBreakMinutes
    ∧ (setDuration (toggleRunning mount) .work "50").secondsLeft
        = (toggleRunning mount).secondsLeft :=
  setDuration_running (toggleRunning mount) (by decide) .work "50"

/-! ## The timer invariant -/

/-- A duration within positive bounds denotes a non-negative number. -/
theorem Minutes.within_toNumber (m : Minutes) (lo hi : Int) (h : m.within lo hi) :
    lo ≤ m.toNumber ∧ m.toNumber ≤ hi := by
  cases m with
  | num n => exact h
  | blank => exact absurd h (by simp [Minutes.within])

/-- With the durations in bounds, a state whose `secondsLeft` is the full phase
length satisfies the invariant. -/
theorem Inv_of_full (s : Timer) (hw : s.workMinutes.within 1 180)
    (hb : s.breakMinutes.within 1 60) (hl : s.longBreakMinutes.within 1 60)
    (hs : s.secondsLeft = totalSeconds s) : Inv s := by
  refine ⟨hw, hb, hl, ?_, le_of_eq hs⟩
  have h1 := Minutes.within_toNumber _ _ _ hw
  have h2 := Minutes.within_toNumber _ _ _ hb
  have h3 := Minutes.within_toNumber _ _ _ hl
  rw [hs]
  unfold totalSeconds
  cases s.mode <;> simp only <;> omega

/-- The invariant survives `handleTimerEnd`. -/
theorem Inv_handleTimerEnd (s : Timer) (h : Inv s) : Inv (handleTimerEnd s) := by
  obtain ⟨hw, hb, hl, -, -⟩ := h
  unfold handleTimerEnd
  by_cases hm : s.mode = .work
  · by_cases hc : (s.cycleCount + 1) % CYCLES_BEFORE_LONG_BREAK = 0
    · simp only [hm, hc, if_true]
      exact Inv_of_full _ hw hb hl rfl
    · simp only [hm, hc, if_true, if_false]
      exact Inv_of_full _ hw hb hl rfl
  · simp only [hm, if_false]
    exact Inv_of_full _ hw hb hl rfl

/-- The effect re-establishes the invariant: it is enough that the durations
are in bounds and that `secondsLeft` is in range whenever the effect does not
run. -/
theorem Inv_syncEffect (old new : Timer) (hw : new.workMinutes.within 1 180)
    (hb : new.breakMinutes.within 1 60) (hl : new.longBreakMinutes.within 1 60)
    (hs : new.mode = old.mode ∧ new.workMinutes = old.workMinutes
        ∧ new.breakMinutes = old.breakMinutes
        ∧ new.longBreakMinutes = old.longBreakMinutes →
      0 ≤ new.secondsLeft ∧ new.secondsLeft ≤ totalSeconds new) :
    Inv (syncEffect old new) := by
  unfold syncEffect
  split_ifs with hdeps
  · exact ⟨hw, hb, hl, (hs hdeps).1, (hs hdeps).2⟩
  · exact Inv_of_full _ hw hb hl rfl

/-- The clamp of a duration input lies within the bounds of that input. -/
theorem within_clamp (lo hi n : Int) (h : lo ≤ hi) :
    (Minutes.num (Max.max lo (Min.min hi n))).within lo hi := by
  simp only [Minutes.within]
  omega

/-- The invariant survives a duration edit whose input is the text of an
integer. -/
theorem Inv_setDuration (s : Timer) (c : Category) (n : Int) (h : Inv s) :
    Inv (setDuration s c (intLiteral n)) := by
  unfold setDuration
  split_ifs with hrun
  · exact h
  · obtain ⟨hw, hb, hl, h0, h1⟩ := h
    cases c
    · refine Inv_syncEffect _ _ ?_ hb hl ?_
      · simp only [onChange, handleNum_intLiteral]
        exact within_clamp 1 180 n (by norm_num)
      · intro hdeps
        have e : (onChange .work (intLiteral n) s).workMinutes = s.workMinutes := hdeps.2.1
        have e2 : onChange .work (intLiteral n) s = s := by
          simp only [onChange] at e ⊢
          rw [e]
        rw [e2]
        exact ⟨h0, h1⟩
    · refine Inv_syncEffect _ _ hw ?_ hl ?_
      · simp only [onChange, handleNum_intLiteral]
        exact within_clamp 1 60 n (by norm_num)
      · intro hdeps
        have e : (onChange .short (intLiteral n) s).breakMinutes = s.breakMinutes := hdeps.2.2.1
        have e2 : onChange .short (intLiteral n) s = s := by
          simp only [onChange] at e ⊢
          rw [e]
        rw [e2]
        exact ⟨h0, h1⟩
    · refine Inv_syncEffect _ _ hw hb ?_ ?_
      · simp only [onChange, handleNum_intLiteral]
        exact within_clamp 1 60 n (by norm_num)
      · intro hdeps
        have e : (onChange .long (intLiteral n) s).longBreakMinutes = s.longBreakMinutes :=
          hdeps.2.2.2
        have e2 : onChange .long (intLiteral n) s = s := by
          simp only [onChange] at e ⊢
          rw [e]
        rw [e2]
        exact ⟨h0, h1⟩

/-- C7: every state reachable from the mounted timer (25/5/15, Work, 1500 s) by
Start/Pause, ticks, Skip, Reset, mode pills and duration edits with an integer
input has `workMinutes` in `[1,180]`, both break durations in `[1,60]`, and
`0 <= secondsLeft <= totalSeconds`. -/
theorem reachable_inv (s : Timer) (h : Reachable s) : Inv s := by
  induction h with
  | mount => exact ⟨by decide, by decide, by decide, by decide, by decide⟩
  | toggleRunning s _ ih => exact ih
  | tick s _ ih =>
    unfold tick
    split_ifs with hrun hz
    · have hI := Inv_handleTimerEnd s ih
      obtain ⟨hw, hb, hl, -, -⟩ := hI
      refine Inv_syncEffect _ _ hw hb hl ?_
      intro hdeps
      have hmode : (handleTimerEnd s).mode = s.mode := hdeps.1
      exfalso
      unfold handleTimerEnd at hmode
      by_cases hm : s.mode = .work
      · by_cases hc : (s.cycleCount + 1) % CYCLES_BEFORE_LONG_BREAK = 0 <;>
          simp [hm, hc] at hmode
      · simp [hm, Ne.symm hm] at hmode
    · obtain ⟨hw, hb, hl, h0, h1⟩ := ih
      refine ⟨hw, hb, hl, ?_, ?_⟩
      · show 0 ≤ s.secondsLeft - 1
        omega
      · show s.secondsLeft - 1 ≤ totalSeconds s
        omega
    · exact ih
  | skip s _ ih =>
    unfold skip
    rw [syncEffect_handleTimerEnd]
    exact Inv_handleTimerEnd s ih
  | reset s _ ih =>
    obtain ⟨hw, hb, hl, -, -⟩ := ih
    refine Inv_syncEffect _ _ hw hb hl ?_
    intro _
    have h1 := Minutes.within_toNumber _ _ _ hw
    constructor
    · show 0 ≤ s.workMinutes.toNumber * 60
      omega
    · exact le_of_eq rfl
  | setMode s m _ ih =>
    obtain ⟨hw, hb, hl, h0, h1⟩ := ih
    refine Inv_syncEffect _ _ hw hb hl ?_
    intro hdeps
    have hm : m = s.mode := hdeps.1
    subst hm
    exact ⟨h0, h1⟩
  | setDuration s c n _ ih => exact Inv_setDuration s c n ih

/-- Witness for C7: Start, one tick, then the Work field edited to `500`. -/
theorem reachable_inv_witness :
    Inv (setDuration (toggleRunning (tick (toggleRunning mount))) .work (intLiteral 500)) :=
  reachable_inv _
    (Reachable.setDuration _ .work 500
      (Reachable.toggleRunning _ (Reachable.tick _ (Reachable.toggleRunning _ Reachable.mount))))

end Pomodoro

end Focusly

namespace Focusly

namespace Tasks

/-! ## Sections -/

/-- Two day starts compare as the local days they start. -/
theorem dayStart_lt_iff (c : Clock) (x y : Int) :
    (dayStart c x < dayStart c y ↔ c.localDay x < c.localDay y)
    ∧ (dayStart c x = dayStart c y ↔ c.localDay x = c.localDay y) := by
  unfold dayStart msPerDay
  constructor <;> constructor <;> intro h <;> omega

/-- The function `sectionKey` in terms of local calendar days: `done` for a done
task; otherwise by the local day on which the parsed due instant falls. -/
theorem sectionKey_eq (c : Clock) (t : Task) :
    sectionKey c t =
      if t.status = .done then .done
      else match t.dueDate with
        | none => .later
        | some d =>
          if c.localDay (parseDate d) = c.localDay c.now then .today
          else if c.localDay c.now < c.localDay (parseDate d)
              ∧ c.localDay (parseDate d) < c.localDay c.now + 7 then .week
          else .later := by
  unfold sectionKey
  by_cases hs : t.status = .done
  · simp [hs]
  · cases hd : t.dueDate with
    | none => simp [hs]
    | some d =>
      simp only [hs, if_false, Option.map_some']
      have h1 := (dayStart_lt_iff c (parseDate d) c.now).2
      have h2 := (dayStart_lt_iff c c.now (parseDate d)).1
      have h3 : dayStart c (parseDate d) < dayStart c c.now + 7 * msPerDay
          ↔ c.localDay (parseDate d) < c.localDay c.now + 7 := by
        unfold dayStart msPerDay
        constructor <;> intro h <;> omega
      simp only [gt_iff_lt, h1, h2, h3]

/-- The local day of a parsed due date: the written day itself in a browser on
or east of UTC, the day before it in a browser west of UTC. -/
theorem localDay_parseDate (c : Clock) (d : Int) :
    (0 ≤ c.offsetMinutes → c.offsetMinutes < 1440 → c.localDay (parseDate d) = d)
    ∧ (c.offsetMinutes < 0 → -1440 ≤ c.offsetMinutes → c.localDay (parseDate d) = d - 1) := by
  unfold Clock.localDay parseDate msPerDay
  constructor <;> intro h1 h2 <;> omega

/-- The section does not depend on the `order` field. -/
theorem sectionKey_order (c : Clock) (t : Task) (o : Half) :
    sectionKey c { t with order := o } = sectionKey c t := rfl

/-- C16, the code at a failing input: in a browser five hours west of UTC, at
noon of day 19823, an open task whose due date is that same day 19823 is put
in `later` (its due instant, midnight UTC, falls on the local day before), and
an open task due the next day is put in `today`. -/
theorem sectionKey_west_due_today :
    noonWest.localDay noonWest.now = 19823
    ∧ sectionKey noonWest (sampleTask "a" .todo (some 19823) 0 1) = .later
    ∧ sectionKey noonWest (sampleTask "b" .todo (some 19824) 0 2) = .today := by
  decide

/-! ## Drops that change nothing -/

/-- With pairwise distinct ids, `find` by the id of a member returns that
member. -/
theorem find_id_of_mem (items : List Task) (hnd : (items.map (fun t => t.id)).Nodup)
    (a : Task) (ha : a ∈ items) :
    items.find? (fun t => t.id = a.id) = some a := by
  induction items with
  | nil => exact absurd ha (List.not_mem_nil _)
  | cons x xs ih =>
    rw [List.map_cons, List.nodup_cons] at hnd
    rcases List.mem_cons.mp ha with rfl | hmem
    · simp [List.find?]
    · have hne : x.id ≠ a.id := by
        intro h
        exact hnd.1 (h ▸ List.mem_map_of_mem (fun t => t.id) hmem)
      simp [List.find?, hne, ih hnd.2 hmem]

/-- When no member carries the id, `find` returns nothing. -/
theorem find_id_none (items : List Task) (f : String) (h : ∀ t ∈ items, t.id ≠ f) :
    items.find? (fun t => t.id = f) = none := by
  rw [List.find?_eq_none]
  intro t ht
  simpa using h t ht

/-- The drag data of a whole gesture resolve to the dragged id. -/
theorem fromId_self (f : String) : fromId f (some f) = some f := by
  unfold fromId
  split_ifs <;> rfl

/-- C12: with pairwise distinct ids, dropping a member `a` onto a member `b` of
another derived section returns the collection itself: every task keeps its
order, its section and its position. -/
theorem dragDrop_cross_section (c : Clock) (items : List Task) (a b : Task)
    (ha : a ∈ items) (hb : b ∈ items) (hnd : (items.map (fun t => t.id)).Nodup)
    (hsec : sectionKey c a ≠ sectionKey c b) :
    dragDrop c a.id b.id items = items := by
  unfold dragDrop onDrop
  rw [fromId_self]
  simp only
  split_ifs with h
  · rfl
  · unfold reorder
    rw [find_id_of_mem items hnd a ha, find_id_of_mem items hnd b hb]
    simp [hsec]

/-- Witness for C12: a done task dropped onto an open one. -/
theorem dragDrop_cross_section_witness :
    dragDrop noonUTC (sampleTask "x" .done none 0 1).id (sampleTask "a" .todo none 0 2).id
        [sampleTask "x" .done none 0 1, sampleTask "a" .todo none 0 2]
      = [sampleTask "x" .done none 0 1, sampleTask "a" .todo none 0 2] :=
  dragDrop_cross_section noonUTC _ _ _ (by decide) (by decide) (by decide) (by decide)

/-- C13: a drop returns the collection itself when the source id equals the
target id, when the source id is missing or empty, when the source id matches
no task, and when the target id matches no task. -/
theorem onDrop_noop (c : Clock) (items : List Task) (overTid data : String)
    (dragFromId : Option String) :
    (fromId data dragFromId = some overTid → onDrop c overTid data dragFromId items = items)
    ∧ (fromId data dragFromId = none ∨ fromId data dragFromId = some "" →
        onDrop c overTid data dragFromId items = items)
    ∧ (∀ f, fromId data dragFromId = some f → (∀ t ∈ items, t.id ≠ f) →
        onDrop c overTid data dragFromId items = items)
    ∧ ((∀ t ∈ items, t.id ≠ overTid) → onDrop c overTid data dragFromId items = items) := by
  refine ⟨?_, ?_, ?_, ?_⟩
  · intro h
    simp [onDrop, h]
  · rintro (h | h) <;> simp [onDrop, h]
  · intro f h hno
    simp only [onDrop, h]
    split_ifs
    · rfl
    · simp [reorder, find_id_none items f hno]
  · intro hno
    unfold onDrop
    cases hf : fromId data dragFromId with
    | none => rfl
    | some f =>
      simp only
      split_ifs
      · rfl
      · unfold reorder
        rw [find_id_none items overTid hno]
        cases items.find? (fun t => t.id = f) <;> rfl

/-- Witness for C13: a card dropped on itself, a drop without drag data, a
drop with an unknown source and a drop on an unknown target. -/
theorem onDrop_noop_witness :
    onDrop noonUTC "a" "a" none [sampleTask "a" .todo none 0 1, sampleTask "b" .todo none 0 2]
        = [sampleTask "a" .todo none 0 1, sampleTask "b" .todo none 0 2]
    ∧ onDrop noonUTC "a" "" none [sampleTask "a" .todo none 0 1, sampleTask "b" .todo none 0 2]
        = [sampleTask "a" .todo none 0 1, sampleTask "b" .todo none 0 2]
    ∧ onDrop noonUTC "a" "zz" none [sampleTask "a" .todo none 0 1, sampleTask "b" .todo none 0 2]
        = [sampleTask "a" .todo none 0 1, sampleTask "b" .todo none 0 2]
    ∧ onDrop noonUTC "zz" "b" none [sampleTask "a" .todo none 0 1, sampleTask "b" .todo none 0 2]
        = [sampleTask "a" .todo none 0 1, sampleTask "b" .todo none 0 2] :=
  ⟨(onDrop_noop noonUTC _ "a" "a" none).1 (by decide),
   (onDrop_noop noonUTC _ "a" "" none).2.1 (Or.inl (by decide)),
   (onDrop_noop noonUTC _ "a" "zz" none).2.2.1 "zz" (by decide) (by decide),
   (onDrop_noop noonUTC _ "zz" "b" none).2.2.2 (by decide)⟩

/-! ## The derived view -/

/-- A sign is at most zero exactly when the number is. -/
theorem sign_nonpos_iff (x : Int) : Int.sign x ≤ 0 ↔ x ≤ 0 := by
  rcases lt_trichotomy x 0 with h | h | h
  · simp [Int.sign_eq_neg_one_of_neg h, le_of_lt h]
  · simp [h]
  · simp [Int.sign_eq_one_of_pos h, not_le.mpr h]

/-- Swapping the operands of a difference negates its sign. -/
theorem sign_sub_swap (x y : Int) : Int.sign (x - y) = - Int.sign (y - x) := by
  rw [← Int.sign_neg, neg_sub]

/-- A row compares equal to itself. -/
theorem lexSign_self (xs : List Int) : lexSign xs xs = 0 := by
  induction xs with
  | nil => rfl
  | cons x xs ih => simp [lexSign, ih]

/-- Swapping the rows negates the sign. -/
theorem lexSign_swap (xs : List Int) : ∀ ys : List Int, lexSign ys xs = - lexSign xs ys := by
  induction xs with
  | nil => intro ys; cases ys <;> simp [lexSign]
  | cons x xs ih =>
    intro ys
    cases ys with
    | nil => simp [lexSign]
    | cons y ys =>
      by_cases h : x = y
      · simp [lexSign, h, ih ys]
      · simp only [lexSign, ne_eq, h, Ne.symm h, not_false_eq_true, if_true]
        exact sign_sub_swap _ _

/-- On rows of one length, "not after" is transitive. -/
theorem lexSign_trans (xs : List Int) : ∀ ys zs : List Int, xs.length = ys.length →
    ys.length = zs.length → lexSign xs ys ≤ 0 → lexSign ys zs ≤ 0 → lexSign xs zs ≤ 0 := by
  induction xs with
  | nil => intro ys zs _ _ _ _; simp [lexSign]
  | cons x xs ih =>
    intro ys zs h1 h2 h3 h4
    cases ys with
    | nil => simp at h1
    | cons y ys =>
      cases zs with
      | nil => simp at h2
      | cons z zs =>
        simp only [List.length_cons, add_left_inj] at h1 h2
        simp only [lexSign, ne_eq] at h3 h4 ⊢
        by_cases hxy : x = y
        · by_cases hyz : y = z
          · subst hxy hyz
            simp only [not_true_eq_false, if_false] at h3 h4 ⊢
            exact ih ys zs h1 h2 h3 h4
          · subst hxy
            simpa [hyz] using h4
        · by_cases hyz : y = z
          · subst hyz
            simpa [hxy] using h3
          · simp only [hxy, hyz, not_false_eq_true, if_true, sign_nonpos_iff] at h3 h4
            have hxz : ¬ x = z := by omega
            simp only [hxz, not_false_eq_true, if_true, sign_nonpos_iff]
            omega

/-- The last entry of a row: the sign of a difference is zero on equal numbers. -/
theorem ite_sign_sub (x y : Int) :
    (if x = y then (0 : Int) else Int.sign (x - y)) = Int.sign (x - y) := by
  split_ifs with h
  · simp [h]
  · rfl

/-- The comparator is the lexicographic comparison of the key rows. -/
theorem compareTasks_eq_lexSign (k : SortBy) (a b : Task) :
    compareTasks k a b = lexSign (sortKeys k a) (sortKeys k b) := by
  have hc : (b.createdAt = a.createdAt) ↔ (a.createdAt = b.createdAt) := eq_comm
  cases k
  · simp only [compareTasks, sortKeys, lexSign, true_and, false_and, if_false, reduceCtorEq,
      ne_eq, neg_inj, neg_sub_neg]
    cases a.starred <;> cases b.starred <;> simp [hc, ite_sign_sub]
  · simp only [compareTasks, sortKeys, lexSign, true_and, false_and, if_false, reduceCtorEq,
      ne_eq, neg_inj, neg_sub_neg]
    cases dueTime a <;> cases dueTime b <;> simp [hc, ite_sign_sub]
  · simp only [compareTasks, sortKeys, lexSign, true_and, false_and, if_false, reduceCtorEq,
      ne_eq, neg_inj, neg_sub_neg]
    simp [hc, ite_sign_sub]

/-- Under one sort key all rows have the same length. -/
theorem sortKeys_length (k : SortBy) (a b : Task) :
    (sortKeys k a).length = (sortKeys k b).length := by
  cases k <;> rfl

/-- The comparator returns zero on a task and itself. -/
theorem compareTasks_self (k : SortBy) (a : Task) : compareTasks k a a = 0 := by
  rw [compareTasks_eq_lexSign, lexSign_self]

/-- Swapping the arguments negates the comparator. -/
theorem compareTasks_swap (k : SortBy) (a b : Task) :
    compareTasks k b a = - compareTasks k a b := by
  rw [compareTasks_eq_lexSign, compareTasks_eq_lexSign, lexSign_swap]

/-- The relation "the comparator does not put `a` after `b`" is transitive. -/
theorem compareTasks_trans (k : SortBy) (a b c : Task)
    (h1 : compareTasks k a b ≤ 0) (h2 : compareTasks k b c ≤ 0) : compareTasks k a c ≤ 0 := by
  rw [compareTasks_eq_lexSign] at *
  exact lexSign_trans _ _ _ (sortKeys_length k a b) (sortKeys_length k b c) h1 h2

/-- Of two tasks the comparator puts one not after the other. -/
instance (k : SortBy) : IsTotal Task (fun a b => compareTasks k a b ≤ 0) :=
  ⟨fun a b => by
    have h := compareTasks_swap k a b
    by_cases h1 : compareTasks k a b ≤ 0
    · exact Or.inl h1
    · right; omega⟩

/-- The comparator relation is transitive, as an instance. -/
instance (k : SortBy) : IsTrans Task (fun a b => compareTasks k a b ≤ 0) :=
  ⟨fun a b c => compareTasks_trans k a b c⟩

/-- The sorted list is ascending for the comparator. -/
theorem sortTasks_sorted (k : SortBy) (l : List Task) :
    (sortTasks k l).Sorted (fun a b => compareTasks k a b ≤ 0) :=
  List.sorted_insertionSort _ l

/-- The sorted list is a rearrangement of the input. -/
theorem sortTasks_perm (k : SortBy) (l : List Task) : (sortTasks k l).Perm l :=
  List.perm_insertionSort _ l

/-- In a sorted view, a task that the comparator ranks strictly first stands
at the smaller index. -/
theorem index_lt_of_compare_neg (k : SortBy) (l : List Task) (i j : Nat)
    (hi : i < (sortTasks k l).length) (hj : j < (sortTasks k l).length)
    (h : compareTasks k (sortTasks k l)[i] (sortTasks k l)[j] < 0) : i < j := by
  by_contra hij
  rcases Nat.lt_or_eq_of_le (not_lt.mp hij) with hlt | heq
  · have hs := List.pairwise_iff_getElem.mp (sortTasks_sorted k l) j i hj hi hlt
    have := compareTasks_swap k (sortTasks k l)[i] (sortTasks k l)[j]
    omega
  · subst heq
    rw [compareTasks_self] at h
    omega


/-- A sign is negative exactly when the number is. -/
theorem sign_neg_iff (x : Int) : Int.sign x < 0 ↔ x < 0 := by
  rcases lt_trichotomy x 0 with h | h | h
  · simp [Int.sign_eq_neg_one_of_neg h, h]
  · simp [h]
  · simp [Int.sign_eq_one_of_pos h, not_lt.mpr (le_of_lt h)]

/-- With no priority filter, no tag filter and an empty search, the filters
keep exactly the tasks of the selected status. -/
theorem filterStage_status (toLowerCase : String → String) (items : List Task) (x : Status)
    (k : SortBy) (sc : Bool) :
    filterStage toLowerCase (statusTab x k sc) items
      = items.filter (fun t => t.status = x) := by
  have hq : trimTruthy "" = false := by decide
  simp only [filterStage, statusTab, hq, ne_eq, not_true_eq_false, if_false, Bool.false_eq_true]
  cases x <;> cases sc <;>
    simp only [List.filter_filter, reduceCtorEq, if_true, if_false, Bool.not_true,
      Bool.not_false, true_and, false_and, not_false_eq_true, not_true_eq_false,
      Bool.false_eq_true] <;>
    apply List.filter_congr <;> intro t _ <;> cases t.status <;> simp

/-- C17: with no priority filter, no tag filter and an empty search, the view of
status tab `x` is a rearrangement of the tasks whose status is `x` (each once);
every task in it has status `x`, so the Todo and Doing views hold no done task;
and the view is the same list with "show completed" on and off. -/
theorem filtered_status_tab (toLowerCase : String → String) (items : List Task) (x : Status)
    (k : SortBy) (sc : Bool) :
    (filtered toLowerCase (statusTab x k sc) items).Perm
        (items.filter (fun t => t.status = x))
    ∧ (∀ t ∈ filtered toLowerCase (statusTab x k sc) items, t.status = x)
    ∧ (x ≠ .done → ∀ t ∈ filtered toLowerCase (statusTab x k sc) items,
          t.status ≠ .done)
    ∧ filtered toLowerCase (statusTab x k true) items
      = filtered toLowerCase (statusTab x k false) items := by
  have hperm : (filtered toLowerCase (statusTab x k sc) items).Perm
        (items.filter (fun t => t.status = x)) := by
    unfold filtered
    rw [filterStage_status]
    exact sortTasks_perm _ _
  have hmem : ∀ t ∈ filtered toLowerCase (statusTab x k sc) items, t.status = x := by
    intro t ht
    have := (hperm.mem_iff).mp ht
    simpa using (List.mem_filter.mp this).2
  refine ⟨hperm, hmem, ?_, ?_⟩
  · intro hx t ht
    rw [hmem t ht]
    exact hx
  · unfold filtered
    rw [filterStage_status, filterStage_status]
    rfl


/-- Witness for C17: the Todo tab over one open and one done task. -/
theorem filtered_status_tab_witness :
    ∀ t ∈ filtered asciiLower (statusTab .todo .priority true)
        [sampleTask "a" .todo none 0 1, sampleTask "x" .done none 0 2],
      t.status ≠ .done :=
  (filtered_status_tab asciiLower
    [sampleTask "a" .todo none 0 1, sampleTask "x" .done none 0 2]
    .todo .priority true).2.2.1 (by decide)

/-- C18, as stated, fails: two tasks of equal priority and star, `a` created
first with order 1 and `b` created later with order 2, are shown `b` before `a`
by the priority sort, against the ascending sequence of their orders. -/
theorem priority_ties_newest_first :
    filtered asciiLower (statusTab .todo .priority false)
        [sampleTask "b" .todo none 2000 2, sampleTask "a" .todo none 1000 1]
      = [sampleTask "b" .todo none 2000 2, sampleTask "a" .todo none 1000 1]
    ∧ (sampleTask "a" .todo none 1000 1).priority = (sampleTask "b" .todo none 2000 2).priority
    ∧ (sampleTask "a" .todo none 1000 1).starred = (sampleTask "b" .todo none 2000 2).starred
    ∧ (sampleTask "a" .todo none 1000 1).order.twice
        < (sampleTask "b" .todo none 2000 2).order.twice := by
  decide

/-- C18, amended: in a view sorted by priority, a task of higher priority rank
stands before one of lower rank; at equal priority a starred task stands before
an unstarred one; at equal priority and star the task created later stands
first; and only at equal creation time the task of smaller order stands
first. -/
theorem priority_view_order (toLowerCase : String → String) (v : ViewState)
    (hv : v.sortBy = .priority) (items : List Task)
    (i j : Nat) (hi : i < (filtered toLowerCase v items).length)
    (hj : j < (filtered toLowerCase v items).length) :
    ((filtered toLowerCase v items)[j].priority.index < (filtered toLowerCase v items)[i].priority.index → i < j)
    ∧ ((filtered toLowerCase v items)[i].priority = (filtered toLowerCase v items)[j].priority →
        (filtered toLowerCase v items)[i].starred = true → (filtered toLowerCase v items)[j].starred = false → i < j)
    ∧ ((filtered toLowerCase v items)[i].priority = (filtered toLowerCase v items)[j].priority →
        (filtered toLowerCase v items)[i].starred = (filtered toLowerCase v items)[j].starred →
        (filtered toLowerCase v items)[j].createdAt < (filtered toLowerCase v items)[i].createdAt → i < j)
    ∧ ((filtered toLowerCase v items)[i].priority = (filtered toLowerCase v items)[j].priority →
        (filtered toLowerCase v items)[i].starred = (filtered toLowerCase v items)[j].starred →
        (filtered toLowerCase v items)[i].createdAt = (filtered toLowerCase v items)[j].createdAt →
        (filtered toLowerCase v items)[i].order.twice < (filtered toLowerCase v items)[j].order.twice → i < j) := by
  have key : ∀ i j (hi : i < (filtered toLowerCase v items).length)
      (hj : j < (filtered toLowerCase v items).length),
      compareTasks .priority (filtered toLowerCase v items)[i] (filtered toLowerCase v items)[j] < 0 → i < j := by
    intro i j hi hj h
    have e : ∀ a b, compareTasks v.sortBy a b = compareTasks .priority a b := by
      intro a b
      rw [hv]
    apply index_lt_of_compare_neg v.sortBy (filterStage toLowerCase v items) i j hi hj
    rw [e]
    exact h
  refine ⟨?_, ?_, ?_, ?_⟩
  · intro h
    apply key i j hi hj
    simp only [compareTasks, true_and, ne_eq, ne_of_gt h, not_false_eq_true, if_true,
      sign_neg_iff]
    omega
  · intro hp hs1 hs2
    apply key i j hi hj
    simp [compareTasks, hp, hs1, hs2]
  · intro hp hs hc
    apply key i j hi hj
    simp only [compareTasks, hp, hs, ne_eq, not_true_eq_false, and_false, if_false,
      reduceCtorEq, false_and, ne_of_lt hc, not_false_eq_true, if_true, sign_neg_iff]
    omega
  · intro hp hs hc ho
    apply key i j hi hj
    simp only [compareTasks, hp, hs, hc, ne_eq, not_true_eq_false, and_false, if_false,
      reduceCtorEq, false_and, sign_neg_iff]
    omega

/-- Witness for C18: the two tasks of the counterexample: the task at index 0
was created after the task at index 1. -/
theorem priority_view_order_witness :
    (filtered asciiLower (statusTab .todo .priority false)
        [sampleTask "b" .todo none 2000 2, sampleTask "a" .todo none 1000 1])[1].createdAt
      < (filtered asciiLower (statusTab .todo .priority false)
        [sampleTask "b" .todo none 2000 2, sampleTask "a" .todo none 1000 1])[0].createdAt
    ∧ 0 < 1 :=
  ⟨by decide,
   (priority_view_order asciiLower (statusTab .todo .priority false) rfl
    [sampleTask "b" .todo none 2000 2, sampleTask "a" .todo none 1000 1] 0 1
    (by decide) (by decide)).2.2.1 (by decide) (by decide) (by decide)⟩

/-- C19: the priority comparator is a total preorder (zero on equal arguments,
sign negated by swapping, transitive); the sorted list is a permutation of the
input; two tasks the comparator does not put in the other sequence keep their
input sequence (stability); and sorting the sorted list returns it unchanged. -/
theorem sortTasks_priority_total_stable (l : List Task) :
    (∀ a, compareTasks .priority a a = 0)
    ∧ (∀ a b, compareTasks .priority b a = - compareTasks .priority a b)
    ∧ (∀ a b c, compareTasks .priority a b ≤ 0 → compareTasks .priority b c ≤ 0 →
        compareTasks .priority a c ≤ 0)
    ∧ (sortTasks .priority l).Perm l
    ∧ (∀ a b, [a, b].Sublist l → compareTasks .priority a b ≤ 0 →
        [a, b].Sublist (sortTasks .priority l))
    ∧ sortTasks .priority (sortTasks .priority l) = sortTasks .priority l := by
  refine ⟨compareTasks_self _, compareTasks_swap _, compareTasks_trans _, sortTasks_perm _ l,
    ?_, ?_⟩
  · intro a b hsub hab
    exact List.sublist_insertionSort (List.pairwise_pair.mpr hab) hsub
  · exact List.Sorted.insertionSort_eq (sortTasks_sorted .priority l)

/-- C20: in a view sorted by due date, of two dated tasks the one due earlier
stands first; a dated task stands before an undated one; at equal or both
absent due dates the task created later stands first, and at equal creation
time the task of smaller order stands first. -/
theorem due_view_order (toLowerCase : String → String) (v : ViewState)
    (hv : v.sortBy = .due) (items : List Task)
    (i j : Nat) (hi : i < (filtered toLowerCase v items).length)
    (hj : j < (filtered toLowerCase v items).length) :
    (∀ da db, (filtered toLowerCase v items)[i].dueDate = some da → (filtered toLowerCase v items)[j].dueDate = some db →
        da < db → i < j)
    ∧ (∀ da, (filtered toLowerCase v items)[i].dueDate = some da → (filtered toLowerCase v items)[j].dueDate = none →
        i < j)
    ∧ ((filtered toLowerCase v items)[i].dueDate = (filtered toLowerCase v items)[j].dueDate →
        (filtered toLowerCase v items)[j].createdAt < (filtered toLowerCase v items)[i].createdAt → i < j)
    ∧ ((filtered toLowerCase v items)[i].dueDate = (filtered toLowerCase v items)[j].dueDate →
        (filtered toLowerCase v items)[i].createdAt = (filtered toLowerCase v items)[j].createdAt →
        (filtered toLowerCase v items)[i].order.twice < (filtered toLowerCase v items)[j].order.twice → i < j) := by
  have key : ∀ i j (hi : i < (filtered toLowerCase v items).length)
      (hj : j < (filtered toLowerCase v items).length),
      compareTasks .due (filtered toLowerCase v items)[i] (filtered toLowerCase v items)[j] < 0 → i < j := by
    intro i j hi hj h
    have e : ∀ a b, compareTasks v.sortBy a b = compareTasks .due a b := by
      intro a b
      rw [hv]
    apply index_lt_of_compare_neg v.sortBy (filterStage toLowerCase v items) i j hi hj
    rw [e]
    exact h
  refine ⟨?_, ?_, ?_, ?_⟩
  · intro da db ha hb hlt
    apply key i j hi hj
    have hne : ¬ da = db := by omega
    simp only [compareTasks, dueTime, ha, hb, Option.map_some', parseDate, msPerDay,
      reduceCtorEq, false_and, if_false, true_and, ne_eq, Option.some.injEq, sign_neg_iff]
    have h2 : ¬ da * 86400000 = db * 86400000 := by omega
    simp only [h2, not_false_eq_true, if_true, sign_neg_iff]
    omega
  · intro da ha hb
    apply key i j hi hj
    simp [compareTasks, dueTime, ha, hb]
  · intro hd hc
    apply key i j hi hj
    simp only [compareTasks, dueTime, hd, ne_eq, not_true_eq_false, and_false, if_false,
      reduceCtorEq, false_and, ne_of_lt hc, not_false_eq_true, if_true, sign_neg_iff]
    omega
  · intro hd hc ho
    apply key i j hi hj
    simp only [compareTasks, dueTime, hd, hc, ne_eq, not_true_eq_false, and_false, if_false,
      reduceCtorEq, false_and, sign_neg_iff]
    omega

/-- Witness for C20: a task due on day 19824 stands at index 0, an undated one
at index 1, in the view sorted by due date. -/
theorem due_view_order_witness :
    (filtered asciiLower (statusTab .todo .due false)
        [sampleTask "u" .todo none 2000 2, sampleTask "d" .todo (some 19824) 1000 1])[0].dueDate
        = some 19824
    ∧ (filtered asciiLower (statusTab .todo .due false)
        [sampleTask "u" .todo none 2000 2, sampleTask "d" .todo (some 19824) 1000 1])[1].dueDate
        = none
    ∧ 0 < 1 :=
  ⟨by decide, by decide,
   (due_view_order asciiLower (statusTab .todo .due false) rfl
    [sampleTask "u" .todo none 2000 2, sampleTask "d" .todo (some 19824) 1000 1] 0 1
    (by decide) (by decide)).2.1 19824 (by decide) (by decide)⟩

/-! ## Drag and drop inside a section -/

/-- C11, the code at a failing input: a done task `x` with order 1 and two open
tasks `a`, `b` with orders 2 and 3; dropping `b` onto `a` leaves the two tasks of
their section with the orders 2 and 3, their places in the sort of the whole
array, and not with 1 and 2. -/
theorem dragDrop_orders_not_dense :
    (dragDrop noonUTC "b" "a"
        [sampleTask "b" .todo none 3000 3, sampleTask "a" .todo none 2000 2,
         sampleTask "x" .done none 1000 1]).map (fun t => (t.id, t.order))
      = [("x", Half.ofInt 1), ("b", Half.ofInt 2), ("a", Half.ofInt 3)]
    ∧ sectionKey noonUTC (sampleTask "a" .todo none 2000 2) = .later
    ∧ sectionKey noonUTC (sampleTask "b" .todo none 3000 3) = .later
    ∧ sectionKey noonUTC (sampleTask "x" .done none 1000 1) = .done := by
  decide

/-- With pairwise distinct ids, two members with the same id are the same
task. -/
theorem eq_of_id_eq (items : List Task) (hnd : (items.map (fun t => t.id)).Nodup)
    (x y : Task) (hx : x ∈ items) (hy : y ∈ items) (h : x.id = y.id) : x = y :=
  List.inj_on_of_nodup_map hnd hx hy h

/-- The task `setOrder` returns has the id and the section of its argument. -/
theorem setOrder_id (tid : String) (o : Half) (t : Task) :
    (setOrder tid o t).id = t.id ∧ ∀ c, sectionKey c (setOrder tid o t) = sectionKey c t := by
  unfold setOrder
  split_ifs <;> exact ⟨rfl, fun _ => rfl⟩

/-- The task `setOrder` returns differs from its argument in the order at
most, and not at all when the id is another one. -/
theorem setOrder_frame (tid : String) (o : Half) (t : Task) :
    setOrder tid o t = { t with order := (setOrder tid o t).order }
    ∧ (t.id ≠ tid → setOrder tid o t = t) := by
  unfold setOrder
  split_ifs with h
  · exact ⟨rfl, fun hne => absurd h hne⟩
  · exact ⟨rfl, fun _ => rfl⟩

/-- Renumbering keeps the ids in place. -/
theorem renumberFrom_ids (c : Clock) (sec : Section) (l : List Task) : ∀ i : Nat,
    (renumberFrom c sec i l).map (fun t => t.id) = l.map (fun t => t.id) := by
  induction l with
  | nil => intro i; rfl
  | cons t ts ih =>
    intro i
    simp only [renumberFrom, List.map_cons, ih (i + 1)]
    split_ifs <;> rfl

/-- Every task after renumbering is a task of the input with at most its order
changed, and unchanged when it lies outside the section. -/
theorem mem_renumberFrom (c : Clock) (sec : Section) (l : List Task) : ∀ (i : Nat) (r : Task),
    r ∈ renumberFrom c sec i l →
      ∃ t ∈ l, r = { t with order := r.order } ∧ (sectionKey c t ≠ sec → r = t) := by
  induction l with
  | nil => intro i r h; exact absurd h (List.not_mem_nil _)
  | cons t ts ih =>
    intro i r h
    simp only [renumberFrom, List.mem_cons] at h
    rcases h with h | h
    · refine ⟨t, List.mem_cons_self _ _, ?_⟩
      by_cases hs : sectionKey c t ≠ sec
      · rw [if_pos hs] at h
        subst h
        exact ⟨rfl, fun _ => rfl⟩
      · rw [if_neg hs] at h
        subst h
        exact ⟨rfl, fun h2 => absurd h2 hs⟩
    · obtain ⟨u, hu, h1, h2⟩ := ih (i + 1) r h
      exact ⟨u, List.mem_cons_of_mem _ hu, h1, h2⟩

/-- A task outside the section is still there after renumbering. -/
theorem mem_renumberFrom_of_outside (c : Clock) (sec : Section) (l : List Task) :
    ∀ (i : Nat) (t : Task), t ∈ l → sectionKey c t ≠ sec → t ∈ renumberFrom c sec i l := by
  induction l with
  | nil => intro i t h; exact absurd h (List.not_mem_nil _)
  | cons x xs ih =>
    intro i t h hs
    simp only [renumberFrom, List.mem_cons]
    rcases List.mem_cons.mp h with rfl | h
    · left
      rw [if_pos hs]
    · right
      exact ih (i + 1) t h hs

/-- A drop of a member onto another member of the same section, with distinct
non-empty ids, runs the whole updater: order change, sort, renumbering. -/
theorem dragDrop_eq (c : Clock) (items : List Task) (a b : Task)
    (ha : a ∈ items) (hb : b ∈ items) (hnd : (items.map (fun t => t.id)).Nodup)
    (hid : a.id ≠ "") (hab : a.id ≠ b.id) (hsec : sectionKey c a = sectionKey c b) :
    dragDrop c a.id b.id items
      = renumberFrom c (sectionKey c a) 0
          ((items.map (setOrder a.id b.order.subHalf)).insertionSort orderLE) := by
  unfold dragDrop onDrop
  rw [fromId_self]
  simp only [hid, hab, or_self, if_false]
  unfold reorder
  rw [find_id_of_mem items hnd a ha, find_id_of_mem items hnd b hb]
  simp [hsec]

/-- The frame of a drop inside a section: the ids are kept, each once; tasks of
other sections are kept as they are; every record of the result is an input
task with at most its order changed. -/
theorem drop_frame (c : Clock) (items : List Task) (a b : Task)
    (ha : a ∈ items) (hb : b ∈ items) (hnd : (items.map (fun t => t.id)).Nodup)
    (hid : a.id ≠ "") (hab : a.id ≠ b.id) (hsec : sectionKey c a = sectionKey c b) :
    ((dragDrop c a.id b.id items).map (fun t => t.id)).Perm (items.map (fun t => t.id))
    ∧ ((dragDrop c a.id b.id items).map (fun t => t.id)).Nodup
    ∧ (∀ t ∈ items, sectionKey c t ≠ sectionKey c a → t ∈ dragDrop c a.id b.id items)
    ∧ (∀ r ∈ dragDrop c a.id b.id items, ∃ t ∈ items,
        r = { t with order := r.order } ∧ (sectionKey c t ≠ sectionKey c a → r = t)) := by
  rw [dragDrop_eq c items a b ha hb hnd hid hab hsec]
  have hout : ∀ t ∈ items, sectionKey c t ≠ sectionKey c a → t.id ≠ a.id := by
    intro t ht hs h
    exact hs (by rw [eq_of_id_eq items hnd t a ht ha h])
  have hperm : ((renumberFrom c (sectionKey c a) 0
      ((items.map (setOrder a.id b.order.subHalf)).insertionSort orderLE)).map
        (fun t => t.id)).Perm (items.map (fun t => t.id)) := by
    rw [renumberFrom_ids]
    refine ((List.perm_insertionSort orderLE _).map _).trans ?_
    rw [List.map_map]
    apply List.Perm.of_eq
    apply List.map_congr_left
    intro t _
    exact (setOrder_id a.id b.order.subHalf t).1
  refine ⟨hperm, (hperm.nodup_iff).mpr hnd, ?_, ?_⟩
  · intro t ht hs
    apply mem_renumberFrom_of_outside _ _ _ _ _ _ hs
    rw [(List.perm_insertionSort orderLE _).mem_iff]
    refine List.mem_map.mpr ⟨t, ht, ?_⟩
    exact (setOrder_frame a.id b.order.subHalf t).2 (hout t ht hs)
  · intro r hr
    obtain ⟨u, hu, h1, h2⟩ := mem_renumberFrom c _ _ 0 r hr
    rw [(List.perm_insertionSort orderLE _).mem_iff] at hu
    obtain ⟨t, ht, rfl⟩ := List.mem_map.mp hu
    refine ⟨t, ht, ?_, ?_⟩
    · rw [h1]
      rw [(setOrder_frame a.id b.order.subHalf t).1]
    · intro hs
      have e : setOrder a.id b.order.subHalf t = t :=
        (setOrder_frame a.id b.order.subHalf t).2 (hout t ht hs)
      rw [e] at h2
      exact h2 hs

/-- C14: with pairwise distinct ids, a drop of `a` onto `b` in the same section
returns the same ids, each once; every task of another section is in the
result as the identical record; and every record of the result is a task of
the input with at most its order changed. -/
theorem dragDrop_frame (c : Clock) (items : List Task) (a b : Task)
    (ha : a ∈ items) (hb : b ∈ items) (hnd : (items.map (fun t => t.id)).Nodup)
    (hid : a.id ≠ "") (hab : a.id ≠ b.id) (hsec : sectionKey c a = sectionKey c b) :
    ((dragDrop c a.id b.id items).map (fun t => t.id)).Perm (items.map (fun t => t.id))
    ∧ ((dragDrop c a.id b.id items).map (fun t => t.id)).Nodup
    ∧ (∀ t ∈ items, sectionKey c t ≠ sectionKey c a → t ∈ dragDrop c a.id b.id items)
    ∧ (∀ r ∈ dragDrop c a.id b.id items, ∃ t ∈ items,
        r = { t with order := r.order } ∧ (sectionKey c t ≠ sectionKey c a → r = t)) :=
  drop_frame c items a b ha hb hnd hid hab hsec

/-- Witness for C14: `b` dropped onto `a` among three tasks, one of them done. -/
theorem dragDrop_frame_witness :
    ((dragDrop noonUTC (sampleTask "b" .todo none 3000 3).id (sampleTask "a" .todo none 2000 2).id
        [sampleTask "b" .todo none 3000 3, sampleTask "a" .todo none 2000 2,
         sampleTask "x" .done none 1000 1]).map (fun t => t.id)).Nodup :=
  (dragDrop_frame noonUTC
    [sampleTask "b" .todo none 3000 3, sampleTask "a" .todo none 2000 2,
     sampleTask "x" .done none 1000 1]
    (sampleTask "b" .todo none 3000 3) (sampleTask "a" .todo none 2000 2)
    (by decide) (by decide) (by decide) (by decide) (by decide) (by decide)).2.1

/-! ## Dropping back restores the sequence -/

/-- Of two tasks one has the order not above the other. -/
instance : IsTotal Task orderLE := ⟨fun a b => by unfold orderLE; omega⟩

/-- The order comparison is transitive. -/
instance : IsTrans Task orderLE := ⟨fun a b c h1 h2 => by unfold orderLE at *; omega⟩

/-- A task not above any task of a list is inserted at its front. -/
theorem orderedInsert_of_le_all (a : Task) (l : List Task) (h : ∀ x ∈ l, orderLE a x) :
    l.orderedInsert orderLE a = a :: l := by
  cases l with
  | nil => rfl
  | cons b l => simp [List.orderedInsert, h b (List.mem_cons_self _ _)]

/-- Filtering commutes with insertion into a sorted list. -/
theorem filter_orderedInsert (p : Task → Bool) (a : Task) (s : List Task)
    (hs : s.Sorted orderLE) :
    (s.orderedInsert orderLE a).filter p
      = if p a then (s.filter p).orderedInsert orderLE a else s.filter p := by
  induction s with
  | nil => by_cases hp : p a <;> simp [hp]
  | cons b s ih =>
    have hs2 : s.Sorted orderLE := hs.of_cons
    have hb : ∀ x ∈ s, orderLE b x := fun x hx => List.rel_of_sorted_cons hs x hx
    by_cases hab : orderLE a b
    · simp only [List.orderedInsert, hab, if_true]
      by_cases hp : p a
      · simp only [hp, if_true, List.filter_cons_of_pos]
        rw [orderedInsert_of_le_all]
        intro x hx
        have hx2 := (List.mem_filter.mp hx).1
        rcases List.mem_cons.mp hx2 with rfl | hx3
        · exact hab
        · have h3 := hb x hx3
          unfold orderLE at *
          omega
      · simp [hp]
    · simp only [List.orderedInsert, hab, if_false]
      by_cases hpb : p b
      · by_cases hp : p a
        · simp [List.filter_cons, hpb, hp, ih hs2, List.orderedInsert, hab]
        · simp [List.filter_cons, hpb, hp, ih hs2]
      · by_cases hp : p a
        · simp [List.filter_cons, hpb, hp, ih hs2]
        · simp [List.filter_cons, hpb, hp, ih hs2]

/-- Filtering commutes with the stable sort by order. -/
theorem filter_insertionSort (p : Task → Bool) (l : List Task) :
    (l.insertionSort orderLE).filter p = (l.filter p).insertionSort orderLE := by
  induction l with
  | nil => rfl
  | cons a l ih =>
    simp only [List.insertionSort]
    rw [filter_orderedInsert p a _ (List.sorted_insertionSort orderLE l), ih]
    by_cases hp : p a <;> simp [hp, List.filter_cons]


/-- Renumbering keeps the id sequence of the section. -/
theorem renumberFrom_section_ids (c : Clock) (sec : Section) (l : List Task) : ∀ i : Nat,
    ((renumberFrom c sec i l).filter (fun t => sectionKey c t = sec)).map (fun t => t.id)
      = (l.filter (fun t => sectionKey c t = sec)).map (fun t => t.id) := by
  induction l with
  | nil => intro i; rfl
  | cons t ts ih =>
    intro i
    by_cases hs : sectionKey c t = sec
    · have h2 : sectionKey c { t with order := Half.ofInt (↑i + 1) } = sec := hs
      simp [renumberFrom, hs, h2, List.filter_cons, ih (i + 1)]
    · simp [renumberFrom, hs, List.filter_cons, ih (i + 1)]

/-- After renumbering, the tasks of the section stand in strictly ascending
order, and each order is a whole number above the start index. -/
theorem renumberFrom_section_orders (c : Clock) (sec : Section) (l : List Task) : ∀ i : Nat,
    ((renumberFrom c sec i l).filter (fun t => sectionKey c t = sec)).Pairwise
        (fun x y => x.order.twice < y.order.twice)
    ∧ ∀ x ∈ (renumberFrom c sec i l).filter (fun t => sectionKey c t = sec),
        ∃ k : Int, (i : Int) + 1 ≤ k ∧ x.order.twice = 2 * k := by
  induction l with
  | nil => intro i; simp [renumberFrom]
  | cons t ts ih =>
    intro i
    obtain ⟨ih1, ih2⟩ := ih (i + 1)
    by_cases hs : sectionKey c t = sec
    · have h2 : sectionKey c { t with order := Half.ofInt (↑i + 1) } = sec := hs
      simp only [renumberFrom, hs, ne_eq, not_true_eq_false, if_false, List.filter_cons, h2,
        decide_True, if_true, List.pairwise_cons, List.mem_cons, forall_eq_or_imp]
      refine ⟨⟨?_, ih1⟩, ⟨(i : Int) + 1, le_refl _, rfl⟩, ?_⟩
      · intro y hy
        obtain ⟨k, hk1, hk2⟩ := ih2 y hy
        show 2 * ((i : Int) + 1) < y.order.twice
        push_cast at hk1
        omega
      · intro y hy
        obtain ⟨k, hk1, hk2⟩ := ih2 y hy
        push_cast at hk1
        exact ⟨k, by omega, hk2⟩
    · simp only [renumberFrom, hs, ne_eq, not_false_eq_true, if_true, List.filter_cons,
        decide_False, Bool.false_eq_true, if_false]
      refine ⟨ih1, ?_⟩
      intro y hy
      obtain ⟨k, hk1, hk2⟩ := ih2 y hy
      push_cast at hk1
      exact ⟨k, by omega, hk2⟩

/-- A strictly ascending list is sorted. -/
theorem sorted_of_strict (l : List Task)
    (h : l.Pairwise (fun x y => x.order.twice < y.order.twice)) : l.Sorted orderLE :=
  h.imp (fun hxy => le_of_lt hxy)

/-- The section sequence after sort and renumbering is the section sequence of
the array that was sorted: renumbering keeps the relative sequence. -/
theorem sectionSeq_renumberFrom (c : Clock) (sec : Section) (l : List Task) (i : Nat) :
    sectionSeq c sec (renumberFrom c sec i (l.insertionSort orderLE)) = sectionSeq c sec l := by
  unfold sectionSeq
  rw [List.Sorted.insertionSort_eq (sorted_of_strict _ (renumberFrom_section_orders c sec _ i).1),
    renumberFrom_section_ids, filter_insertionSort]


/-- Apart from the task with the given id, `setOrder` changes nothing. -/
theorem filter_ne_map_setOrder (aid : String) (o : Half) (l : List Task) :
    (l.map (setOrder aid o)).filter (fun t => t.id ≠ aid) = l.filter (fun t => t.id ≠ aid) := by
  induction l with
  | nil => rfl
  | cons t ts ih =>
    by_cases h : t.id = aid
    · have h2 : (setOrder aid o t).id = aid := by rw [(setOrder_id aid o t).1, h]
      simpa [List.filter_cons, h, h2] using ih
    · have h2 : setOrder aid o t = t := (setOrder_frame aid o t).2 h
      simpa [List.filter_cons, h, h2] using ih

/-- The function `setOrder` moves no task into or out of a section. -/
theorem filter_sec_map_setOrder (c : Clock) (sec : Section) (aid : String) (o : Half)
    (l : List Task) :
    (l.map (setOrder aid o)).filter (fun t => sectionKey c t = sec)
      = (l.filter (fun t => sectionKey c t = sec)).map (setOrder aid o) := by
  induction l with
  | nil => rfl
  | cons t ts ih =>
    have h2 := (setOrder_id aid o t).2 c
    by_cases h : sectionKey c t = sec
    · simp [List.filter_cons, h, h2, ih]
    · simp [List.filter_cons, h, h2, ih]

/-- Dropping one id from the id list is dropping its task from the list. -/
theorem map_id_filter_ne (aid : String) (l : List Task) :
    (l.map (fun t => t.id)).filter (fun i => i ≠ aid)
      = (l.filter (fun t => t.id ≠ aid)).map (fun t => t.id) := by
  induction l with
  | nil => rfl
  | cons t ts ih =>
    by_cases h : t.id = aid <;> simpa [List.filter_cons, h] using ih

/-- A list without repetition splits at one of its entries in one way only. -/
theorem split_unique (x : String) : ∀ (l1 l2 m1 m2 : List String),
    (l1 ++ x :: l2).Nodup → l1 ++ x :: l2 = m1 ++ x :: m2 → l1 = m1 ∧ l2 = m2 := by
  intro l1
  induction l1 with
  | nil =>
    intro l2 m1 m2 hnd h
    cases m1 with
    | nil => simpa using h
    | cons y m1 =>
      simp only [List.nil_append, List.cons_append, List.cons.injEq] at h
      obtain ⟨rfl, h2⟩ := h
      exfalso
      simp only [List.nil_append, List.nodup_cons] at hnd
      exact hnd.1 (h2 ▸ List.mem_append_right _ (List.mem_cons_self _ _))
  | cons y l1 ih =>
    intro l2 m1 m2 hnd h
    cases m1 with
    | nil =>
      simp only [List.nil_append, List.cons_append, List.cons.injEq] at h
      obtain ⟨rfl, _⟩ := h
      exfalso
      simp only [List.cons_append, List.nodup_cons] at hnd
      exact hnd.1 (List.mem_append_right _ (List.mem_cons_self _ _))
    | cons z m1 =>
      simp only [List.cons_append, List.cons.injEq] at h
      obtain ⟨rfl, h2⟩ := h
      simp only [List.cons_append, List.nodup_cons] at hnd
      obtain ⟨e1, e2⟩ := ih l2 m1 m2 hnd.2 h2
      exact ⟨by rw [e1], e2⟩

/-- In a strictly ascending list of whole-number orders, giving one task the
order just below that of `n1` and sorting puts that task immediately before
`n1` and leaves the sequence of the others as it was. -/
theorem sort_after_move (G : List Task) (aid nid : String) (o2 : Half) (n1 : Task)
    (pre post : List String)
    (hstrict : G.Pairwise (fun x y => x.order.twice < y.order.twice))
    (heven : ∀ x ∈ G, ∃ k : Int, x.order.twice = 2 * k)
    (hnd : (G.map (fun t => t.id)).Nodup)
    (ha : aid ∈ G.map (fun t => t.id))
    (hn : n1 ∈ G) (hnid : n1.id = nid) (hne : aid ≠ nid)
    (ho : o2.twice = n1.order.twice - 1)
    (hids : (G.map (fun t => t.id)).filter (fun i => i ≠ aid) = pre ++ nid :: post) :
    ((G.map (setOrder aid o2)).insertionSort orderLE).map (fun t => t.id)
      = pre ++ aid :: nid :: post := by
  -- the others keep their sequence
  have hH : ((G.map (setOrder aid o2)).insertionSort orderLE).filter (fun t => t.id ≠ aid)
      = G.filter (fun t => t.id ≠ aid) := by
    rw [filter_insertionSort, filter_ne_map_setOrder]
    exact List.Sorted.insertionSort_eq
      (sorted_of_strict _ (hstrict.sublist (List.filter_sublist _)))
  have hperm := List.perm_insertionSort orderLE (G.map (setOrder aid o2))
  have hsorted := List.sorted_insertionSort orderLE (G.map (setOrder aid o2))
  have hidsZ : (((G.map (setOrder aid o2)).insertionSort orderLE).map (fun t => t.id)).Perm
      (G.map (fun t => t.id)) := by
    refine (hperm.map _).trans (List.Perm.of_eq ?_)
    rw [List.map_map]
    exact List.map_congr_left (fun t _ => (setOrder_id aid o2 t).1)
  have hndZ := (hidsZ.nodup_iff).mpr hnd
  -- the moved task and its place
  obtain ⟨z, hz, hzid⟩ := List.mem_map.mp ((hidsZ.mem_iff).mpr ha)
  have hzo : z.order = o2 := by
    obtain ⟨t, _, rfl⟩ := List.mem_map.mp ((hperm.mem_iff).mp hz)
    have ht : t.id = aid := by rw [← (setOrder_id aid o2 t).1]; exact hzid
    simp [setOrder, ht]
  obtain ⟨X, Y, hZ⟩ := List.append_of_mem hz
  rw [hZ] at hH hsorted hndZ ⊢
  simp only [List.map_append, List.map_cons, hzid] at hndZ ⊢
  have hXne : ∀ x ∈ X, x.id ≠ aid := by
    intro x hx h
    have := (List.nodup_append.mp hndZ).2.2
    exact this (List.mem_map_of_mem (fun t => t.id) hx) (by rw [h]; exact List.mem_cons_self _ _)
  have hYne : ∀ y ∈ Y, y.id ≠ aid := by
    intro y hy h
    have h1 := (List.nodup_append.mp hndZ).2.1
    rw [List.nodup_cons] at h1
    exact h1.1 (h ▸ List.mem_map_of_mem (fun t => t.id) hy)
  have hXY : X ++ Y = G.filter (fun t => t.id ≠ aid) := by
    have e1 : X.filter (fun t => t.id ≠ aid) = X :=
      List.filter_eq_self.mpr (fun x hx => by simpa using hXne x hx)
    have e2 : Y.filter (fun t => t.id ≠ aid) = Y :=
      List.filter_eq_self.mpr (fun y hy => by simpa using hYne y hy)
    rw [← hH, List.filter_append, List.filter_cons, e1, e2]
    simp [hzid]
  have hsX : ∀ x ∈ X, x.order.twice ≤ o2.twice := by
    intro x hx
    have := (List.pairwise_append.mp hsorted).2.2 x hx z (List.mem_cons_self _ _)
    rw [← hzo]
    exact this
  have hsY : ∀ y ∈ Y, o2.twice ≤ y.order.twice := by
    intro y hy
    have h1 := (List.pairwise_append.mp hsorted).2.1
    have := List.rel_of_pairwise_cons h1 hy
    rw [← hzo]
    exact this
  -- the neighbour heads the tail
  have hn1H : n1 ∈ X ++ Y := by
    rw [hXY]
    exact List.mem_filter.mpr ⟨hn, by simpa [hnid] using Ne.symm hne⟩
  have hn1Y : n1 ∈ Y := by
    rcases List.mem_append.mp hn1H with h | h
    · have := hsX n1 h
      omega
    · exact h
  obtain ⟨Y1, Y2, hY⟩ := List.append_of_mem hn1Y
  have hstrictH : (X ++ Y).Pairwise (fun x y => x.order.twice < y.order.twice) := by
    rw [hXY]
    exact hstrict.sublist (List.filter_sublist _)
  have hY1 : Y1 = [] := by
    cases Y1 with
    | nil => rfl
    | cons y Y1 =>
      exfalso
      have hyY : y ∈ Y := by rw [hY]; exact List.mem_cons_self _ _
      have h1 := hsY y hyY
      have h2 : y.order.twice < n1.order.twice := by
        have hp := (List.pairwise_append.mp hstrictH).2.1
        rw [hY] at hp
        have := List.rel_of_pairwise_cons hp
          (List.mem_append_right Y1 (List.mem_cons_self n1 Y2))
        exact this
      have hyG : y ∈ G := by
        have : y ∈ X ++ Y := List.mem_append_right _ hyY
        rw [hXY] at this
        exact (List.mem_filter.mp this).1
      obtain ⟨k1, hk1⟩ := heven y hyG
      obtain ⟨k2, hk2⟩ := heven n1 hn
      omega
  rw [hY1, List.nil_append] at hY
  -- read off the ids
  have hsplit : X.map (fun t => t.id) ++ nid :: Y2.map (fun t => t.id) = pre ++ nid :: post := by
    rw [← hids, map_id_filter_ne, ← hXY, hY]
    simp [hnid]
  have hndH : (X.map (fun t => t.id) ++ nid :: Y2.map (fun t => t.id)).Nodup := by
    rw [hsplit, ← hids]
    exact hnd.sublist (List.filter_sublist _)
  obtain ⟨e1, e2⟩ := split_unique nid _ _ _ _ hndH hsplit
  rw [hY]
  simp [e1, e2, hnid]


/-- Changing the order of one task does not change the section sequence of the
other tasks. -/
theorem sectionSeq_filter_ne_setOrder (c : Clock) (sec : Section) (aid : String) (o : Half)
    (l : List Task) :
    (sectionSeq c sec (l.map (setOrder aid o))).filter (fun i => i ≠ aid)
      = (sectionSeq c sec l).filter (fun i => i ≠ aid) := by
  unfold sectionSeq
  rw [map_id_filter_ne, map_id_filter_ne, filter_insertionSort, filter_insertionSort,
    filter_sec_map_setOrder, filter_ne_map_setOrder]

/-- After a drop inside a section every task of the input is still present
under its id and in its section. -/
theorem mem_dragDrop_of_id (c : Clock) (items : List Task) (a b : Task)
    (ha : a ∈ items) (hb : b ∈ items) (hnd : (items.map (fun t => t.id)).Nodup)
    (hid : a.id ≠ "") (hab : a.id ≠ b.id) (hsec : sectionKey c a = sectionKey c b)
    (x : Task) (hx : x ∈ items) :
    ∃ x1 ∈ dragDrop c a.id b.id items, x1.id = x.id ∧ sectionKey c x1 = sectionKey c x := by
  obtain ⟨hperm, -, -, hframe⟩ := drop_frame c items a b ha hb hnd hid hab hsec
  have h1 : x.id ∈ (dragDrop c a.id b.id items).map (fun t => t.id) :=
    (hperm.mem_iff).mpr (List.mem_map_of_mem (fun t => t.id) hx)
  obtain ⟨x1, hx1, hx1id⟩ := List.mem_map.mp h1
  obtain ⟨t, ht, hr, -⟩ := hframe x1 hx1
  have hid2 : t.id = x.id := by
    have : x1.id = t.id := by rw [hr]
    rw [← this]
    exact hx1id
  have ht2 : t = x := eq_of_id_eq items hnd t x ht hx hid2
  refine ⟨x1, hx1, hx1id, ?_⟩
  rw [hr, ← ht2]
  rfl

/-- C15: with pairwise distinct ids, let `a` and `b` be distinct tasks of one
section and `n` the task immediately after `a` in the section sequence
(ascending order, ties in array sequence).  Dropping `a` onto `b` and then `a`
onto `n` yields a collection whose section sequence equals the sequence before
the first drop. -/
theorem dragDrop_restore (c : Clock) (items : List Task) (a b n : Task)
    (ha : a ∈ items) (hb : b ∈ items) (hn : n ∈ items)
    (hnd : (items.map (fun t => t.id)).Nodup)
    (hid : a.id ≠ "") (hab : a.id ≠ b.id)
    (hsab : sectionKey c a = sectionKey c b) (hsan : sectionKey c n = sectionKey c a)
    (pre post : List String)
    (hseq : sectionSeq c (sectionKey c a) items = pre ++ a.id :: n.id :: post) :
    sectionSeq c (sectionKey c a) (dragDrop c a.id n.id (dragDrop c a.id b.id items))
      = sectionSeq c (sectionKey c a) items := by
  -- the section sequence has no repeated id
  have hndseq : (sectionSeq c (sectionKey c a) items).Nodup := by
    unfold sectionSeq
    refine ((List.perm_insertionSort orderLE _).map _).nodup_iff.mpr ?_
    exact hnd.sublist ((List.filter_sublist _).map _)
  have han : a.id ≠ n.id := by
    intro h
    rw [hseq, List.nodup_append] at hndseq
    have h1 := hndseq.2.1
    rw [List.nodup_cons] at h1
    exact h1.1 (h ▸ List.mem_cons_self _ _)
  have hpre : a.id ∉ pre := by
    intro h
    rw [hseq, List.nodup_append] at hndseq
    exact hndseq.2.2 h (List.mem_cons_self _ _)
  have hpost : a.id ∉ post := by
    intro h
    rw [hseq, List.nodup_append] at hndseq
    have h1 := hndseq.2.1
    rw [List.nodup_cons] at h1
    exact h1.1 (List.mem_cons_of_mem _ h)
  -- the collection after the first drop
  obtain ⟨hperm1, hnd1, -, -⟩ := drop_frame c items a b ha hb hnd hid hab hsab
  obtain ⟨a1, ha1, ha1id, ha1sec⟩ := mem_dragDrop_of_id c items a b ha hb hnd hid hab hsab a ha
  obtain ⟨n1, hn1, hn1id, hn1sec⟩ := mem_dragDrop_of_id c items a b ha hb hnd hid hab hsab n hn
  have e1 := dragDrop_eq c items a b ha hb hnd hid hab hsab
  -- the second drop
  have e2 := dragDrop_eq c (dragDrop c a.id b.id items) a1 n1 ha1 hn1 hnd1
    (by rw [ha1id]; exact hid) (by rw [ha1id, hn1id]; exact han)
    (by rw [ha1sec, hn1sec, hsan])
  rw [ha1id, hn1id, ha1sec] at e2
  rw [e2, sectionSeq_renumberFrom, hseq]
  unfold sectionSeq
  rw [filter_sec_map_setOrder]
  have hsec1 := renumberFrom_section_orders c (sectionKey c a) 
    ((items.map (setOrder a.id b.order.subHalf)).insertionSort orderLE) 0
  rw [← e1] at hsec1
  have hG : ((dragDrop c a.id b.id items).filter
      (fun t => sectionKey c t = sectionKey c a)).map (fun t => t.id)
        = sectionSeq c (sectionKey c a) (items.map (setOrder a.id b.order.subHalf)) := by
    rw [e1, renumberFrom_section_ids]
    unfold sectionSeq
    rw [filter_insertionSort]
  apply sort_after_move _ a.id n.id n1.order.subHalf n1 pre post hsec1.1
  · intro x hx
    obtain ⟨k, -, hk⟩ := hsec1.2 x hx
    exact ⟨k, hk⟩
  · exact hnd1.sublist ((List.filter_sublist _).map _)
  · refine List.mem_map.mpr ⟨a1, List.mem_filter.mpr ⟨ha1, ?_⟩, ha1id⟩
    simpa using ha1sec
  · refine List.mem_filter.mpr ⟨hn1, ?_⟩
    simpa [hsan] using hn1sec
  · exact hn1id
  · exact han
  · rfl
  · rw [hG, sectionSeq_filter_ne_setOrder, hseq]
    have f1 : pre.filter (fun i => i ≠ a.id) = pre :=
      List.filter_eq_self.mpr (fun x hx => by
        have : x ≠ a.id := fun h => hpre (h ▸ hx)
        simpa using this)
    have f2 : post.filter (fun i => i ≠ a.id) = post :=
      List.filter_eq_self.mpr (fun x hx => by
        have : x ≠ a.id := fun h => hpost (h ▸ hx)
        simpa using this)
    rw [List.filter_append, List.filter_cons, List.filter_cons, f1, f2]
    simp [Ne.symm han]

/-- Witness for C15: four open tasks `p, a, n, b` with orders 1 to 4; `a` is
dropped onto `b` and then onto `n`. -/
theorem dragDrop_restore_witness :
    sectionSeq noonUTC (sectionKey noonUTC (sampleTask "a" .todo none 2000 2))
        (dragDrop noonUTC (sampleTask "a" .todo none 2000 2).id
          (sampleTask "n" .todo none 3000 3).id
          (dragDrop noonUTC (sampleTask "a" .todo none 2000 2).id
            (sampleTask "b" .todo none 4000 4).id
            [sampleTask "b" .todo none 4000 4, sampleTask "n" .todo none 3000 3,
             sampleTask "a" .todo none 2000 2, sampleTask "p" .todo none 1000 1]))
      = sectionSeq noonUTC (sectionKey noonUTC (sampleTask "a" .todo none 2000 2))
        [sampleTask "b" .todo none 4000 4, sampleTask "n" .todo none 3000 3,
         sampleTask "a" .todo none 2000 2, sampleTask "p" .todo none 1000 1] :=
  dragDrop_restore noonUTC
    [sampleTask "b" .todo none 4000 4, sampleTask "n" .todo none 3000 3,
     sampleTask "a" .todo none 2000 2, sampleTask "p" .todo none 1000 1]
    (sampleTask "a" .todo none 2000 2) (sampleTask "b" .todo none 4000 4)
    (sampleTask "n" .todo none 3000 3)
    (by decide) (by decide) (by decide) (by decide) (by decide) (by decide) (by decide)
    (by decide) ["p"] ["b"] (by decide)

end Tasks

end Focusly

namespace Focusly

namespace Pomodoro

/-! ## Edits of another category, and runs of Skips -/

/-- C29: while the timer is not running, a duration edit that changes the stored
value of a category other than that of the current phase sets `secondsLeft`
back to the full length of the current phase (its minutes times 60, themselves
unchanged), and leaves the phase, the running flag and the cycle count as they
were. -/
theorem setDuration_other_category (s : Timer) (hr : s.isRunning = false) (c : Category)
    (hc : c ≠ s.mode.category) (val : String)
    (hchg : (onChange c val s).minutesOf c ≠ s.minutesOf c) :
    (setDuration s c val).secondsLeft = (s.minutesOf s.mode.category).toNumber * 60
    ∧ (setDuration s c val).secondsLeft = totalSeconds s
    ∧ (setDuration s c val).mode = s.mode
    ∧ (setDuration s c val).isRunning = s.isRunning
    ∧ (setDuration s c val).cycleCount = s.cycleCount
    ∧ (setDuration s c val).minutesOf s.mode.category = s.minutesOf s.mode.category := by
  obtain ⟨w, b, l, sec, run, mode, cyc, title⟩ := s
  simp only at hr
  subst hr
  cases c <;> cases mode <;>
    simp only [Mode.category, ne_eq, not_true_eq_false, reduceCtorEq, not_false_eq_true] at hc <;>
    simp only [onChange, Timer.minutesOf, ne_eq] at hchg <;>
    simp [setDuration, onChange, syncEffect, hchg, totalSeconds, Timer.minutesOf, Mode.category]

/-- Witness for C29: paused in Work with 1000 seconds left, the short break is
edited from 5 to 10 minutes. -/
theorem setDuration_other_category_witness :
    (setDuration { mount with secondsLeft := 1000 } .short "10").secondsLeft
      = totalSeconds { mount with secondsLeft := 1000 } :=
  (setDuration_other_category { mount with secondsLeft := 1000 } rfl .short (by decide) "10"
    (by decide)).2.1

/-- One Skip: durations kept, timer stopped, `secondsLeft` the full length of the
phase entered; from Work the count grows by one and a break is entered, from a
break Work is entered and the count is kept. -/
theorem skip_step (s : Timer) :
    (skip s).workMinutes = s.workMinutes
    ∧ (skip s).breakMinutes = s.breakMinutes
    ∧ (skip s).longBreakMinutes = s.longBreakMinutes
    ∧ (skip s).isRunning = false
    ∧ (skip s).secondsLeft = totalSeconds (skip s)
    ∧ (s.mode = .work → (skip s).cycleCount = s.cycleCount + 1
        ∧ (skip s).mode
            = if (s.cycleCount + 1) % 4 = 0 then Mode.longBreak else Mode.break_)
    ∧ (s.mode ≠ .work → (skip s).cycleCount = s.cycleCount ∧ (skip s).mode = .work) := by
  simp only [skip, syncEffect_handleTimerEnd]
  unfold handleTimerEnd
  by_cases hm : s.mode = .work
  · by_cases hc : (s.cycleCount + 1) % 4 = 0 <;>
      simp [hm, hc, CYCLES_BEFORE_LONG_BREAK, totalSeconds]
  · simp [hm, totalSeconds]

/-- The state after `n` Skips from Work, by induction on `n`. -/
theorem skip_iterate (s : Timer) (hm : s.mode = .work) (n : Nat) :
    (skip^[n] s).workMinutes = s.workMinutes
    ∧ (skip^[n] s).breakMinutes = s.breakMinutes
    ∧ (skip^[n] s).longBreakMinutes = s.longBreakMinutes
    ∧ (skip^[n] s).cycleCount = s.cycleCount + (n + 1) / 2
    ∧ (n % 2 = 0 → (skip^[n] s).mode = .work)
    ∧ (n % 2 = 1 → (skip^[n] s).mode
        = if (s.cycleCount + (n + 1) / 2) % 4 = 0 then Mode.longBreak else Mode.break_)
    ∧ (1 ≤ n → (skip^[n] s).isRunning = false
        ∧ (skip^[n] s).secondsLeft = totalSeconds (skip^[n] s)) := by
  induction n with
  | zero =>
    refine ⟨rfl, rfl, rfl, by simp, fun _ => hm, fun h => by omega, fun h => by omega⟩
  | succ n ih =>
    obtain ⟨i1, i2, i3, i4, i5, i6, -⟩ := ih
    rw [Function.iterate_succ_apply']
    obtain ⟨s1, s2, s3, s4, s5, s6, s7⟩ := skip_step (skip^[n] s)
    refine ⟨s1.trans i1, s2.trans i2, s3.trans i3, ?_, ?_, ?_, fun _ => ⟨s4, s5⟩⟩
    · rcases Nat.mod_two_eq_zero_or_one n with h | h
      · rw [(s6 (i5 h)).1, i4]
        omega
      · have hw : (skip^[n] s).mode ≠ .work := by
          rw [i6 h]; split_ifs <;> simp
        rw [(s7 hw).1, i4]
        omega
    · intro hpar
      have h : n % 2 = 1 := by omega
      have hw : (skip^[n] s).mode ≠ .work := by
        rw [i6 h]; split_ifs <;> simp
      exact (s7 hw).2
    · intro hpar
      have h : n % 2 = 0 := by omega
      rw [(s6 (i5 h)).2, i4]
      have e : (n + 1) / 2 + 1 = (n + 1 + 1) / 2 := by omega
      rw [Nat.add_assoc, e]

/-- C30: from a state in Work with `c` completed cycles, after `n >= 1` Skips the
count is `c + ceil(n/2)` (written `(n + 1) / 2`); the phase is Work exactly when
`n` is even; for odd `n` it is the long break when the count is a multiple of 4
and the short break otherwise; `secondsLeft` is the full length of the phase
reached, at the unchanged durations, and the timer is stopped.  From the
mounted state no phase before the seventh Skip is the long break, and the
seventh is. -/
theorem skip_n (s : Timer) (hm : s.mode = .work) (n : Nat) (hn : 1 ≤ n) :
    (skip^[n] s).cycleCount = s.cycleCount + (n + 1) / 2
    ∧ ((skip^[n] s).mode = .work ↔ n % 2 = 0)
    ∧ (n % 2 = 1 → (skip^[n] s).mode
        = if (s.cycleCount + (n + 1) / 2) % 4 = 0 then Mode.longBreak else Mode.break_)
    ∧ (skip^[n] s).secondsLeft = totalSeconds (skip^[n] s)
    ∧ (skip^[n] s).secondsLeft = (s.minutesOf (skip^[n] s).mode.category).toNumber * 60
    ∧ (skip^[n] s).isRunning = false
    ∧ (∀ m, m < 7 → (skip^[m] mount).mode ≠ .longBreak)
    ∧ (skip^[7] mount).mode = .longBreak := by
  obtain ⟨i1, i2, i3, i4, i5, i6, i7⟩ := skip_iterate s hm n
  refine ⟨i4, ⟨?_, i5⟩, i6, (i7 hn).2, ?_, (i7 hn).1, ?_, by decide⟩
  · intro hw
    by_contra hpar
    have h : n % 2 = 1 := by omega
    rw [i6 h] at hw
    split_ifs at hw
  · rw [(i7 hn).2]
    unfold totalSeconds
    cases hmode : (skip^[n] s).mode <;>
      simp [Timer.minutesOf, Mode.category, i1, i2, i3]
  · intro m hm7
    interval_cases m <;> decide

/-- Witness for C30: three Skips from the mounted state complete two cycles. -/
theorem skip_n_witness :
    (skip^[3] mount).cycleCount = mount.cycleCount + (3 + 1) / 2 :=
  (skip_n mount rfl 3 (by decide)).1

end Pomodoro

end Focusly

namespace Focusly

namespace Tasks

/-! ## Actions on the collection -/

/-- Mapping a function that fixes every member returns the list. -/
theorem map_eq_self (f : Task → Task) (l : List Task) (h : ∀ t ∈ l, f t = t) : l.map f = l := by
  induction l with
  | nil => rfl
  | cons x xs ih =>
    simp only [List.map_cons, h x (List.mem_cons_self _ _),
      ih (fun t ht => h t (List.mem_cons_of_mem _ ht))]

/-- C25: when no task carries the id, each of `toggleStar`, `changeStatus`,
`toggleDone`, `deleteTask`, `saveEdit` (with a draft of that id), `addSubtask`,
`toggleSubtask` and `deleteSubtask` returns the collection itself; each is a
total function, so there is no error to raise. -/
theorem unknown_id_noop (prev : List Task) (tid : String) (h : ∀ t ∈ prev, t.id ≠ tid) :
    toggleStar tid prev = prev
    ∧ (∀ next, changeStatus tid next prev = prev)
    ∧ toggleDone tid prev = prev
    ∧ deleteTask tid prev = prev
    ∧ (∀ draft : Task, draft.id = tid → saveEdit draft prev = prev)
    ∧ (∀ title newId, addSubtask tid title newId prev = prev)
    ∧ (∀ sid, toggleSubtask tid sid prev = prev)
    ∧ (∀ sid, deleteSubtask tid sid prev = prev) := by
  refine ⟨?_, ?_, ?_, ?_, ?_, ?_, ?_, ?_⟩
  · exact map_eq_self _ _ (fun t ht => by simp [h t ht])
  · intro next
    exact map_eq_self _ _ (fun t ht => by simp [h t ht])
  · exact map_eq_self _ _ (fun t ht => by simp [h t ht])
  · exact List.filter_eq_self.mpr (fun t ht => by simpa using h t ht)
  · intro draft hd
    exact map_eq_self _ _ (fun t ht => by simp [hd, h t ht])
  · intro title newId
    exact map_eq_self _ _ (fun t ht => by simp [h t ht])
  · intro sid
    exact map_eq_self _ _ (fun t ht => by simp [h t ht])
  · intro sid
    exact map_eq_self _ _ (fun t ht => by simp [h t ht])

/-- A map by a function that keeps ids and fixes every task of another id
leaves the other tasks alone. -/
theorem keepsOthers_map (f : Task → Task) (tid : String) (prev : List Task)
    (hid : ∀ t, (f t).id = t.id) (hf : ∀ t, t.id ≠ tid → f t = t) :
    KeepsOthers tid prev (prev.map f) := by
  refine ⟨?_, ?_⟩
  · rw [List.map_map]
    exact List.map_congr_left (fun t _ => hid t)
  · intro i h1 h2 hne
    rw [List.getElem_map]
    exact hf _ hne

/-- C24: on a collection with pairwise distinct ids, each single-target action
keeps the id sequence and leaves every task of another id the same record at
the same index; `deleteTask` keeps, in sequence, exactly the tasks of another
id; `clearDone` keeps, in sequence, exactly the tasks that are not done;
`markAllDone` keeps every task and changes the status field only; and after
each of them, and after `addTask` with an id not yet present, the ids are
pairwise distinct. -/
theorem mutations_keep_ids (prev : List Task) (hnd : (prev.map (fun t => t.id)).Nodup)
    (tid : String) :
    KeepsOthers tid prev (toggleStar tid prev)
    ∧ (∀ next, KeepsOthers tid prev (changeStatus tid next prev))
    ∧ KeepsOthers tid prev (toggleDone tid prev)
    ∧ (∀ draft : Task, draft.id = tid → KeepsOthers tid prev (saveEdit draft prev))
    ∧ (∀ title newId, KeepsOthers tid prev (addSubtask tid title newId prev))
    ∧ (∀ sid, KeepsOthers tid prev (toggleSubtask tid sid prev))
    ∧ (∀ sid, KeepsOthers tid prev (deleteSubtask tid sid prev))
    ∧ ((deleteTask tid prev).Sublist prev
        ∧ ∀ t, t ∈ deleteTask tid prev ↔ t ∈ prev ∧ t.id ≠ tid)
    ∧ ((clearDone prev).Sublist prev
        ∧ ∀ t, t ∈ clearDone prev ↔ t ∈ prev ∧ t.status ≠ .done)
    ∧ ((markAllDone prev).length = prev.length
        ∧ ∀ i (h1 : i < prev.length) (h2 : i < (markAllDone prev).length),
            (markAllDone prev)[i] = { prev[i] with status := .done })
    ∧ ((toggleStar tid prev).map (fun t => t.id)).Nodup
    ∧ (∀ next, ((changeStatus tid next prev).map (fun t => t.id)).Nodup)
    ∧ ((toggleDone tid prev).map (fun t => t.id)).Nodup
    ∧ (∀ draft : Task, draft.id = tid → ((saveEdit draft prev).map (fun t => t.id)).Nodup)
    ∧ (∀ title newId, ((addSubtask tid title newId prev).map (fun t => t.id)).Nodup)
    ∧ (∀ sid, ((toggleSubtask tid sid prev).map (fun t => t.id)).Nodup)
    ∧ (∀ sid, ((deleteSubtask tid sid prev).map (fun t => t.id)).Nodup)
    ∧ ((deleteTask tid prev).map (fun t => t.id)).Nodup
    ∧ ((clearDone prev).map (fun t => t.id)).Nodup
    ∧ ((markAllDone prev).map (fun t => t.id)).Nodup
    ∧ (∀ form newId now, newId ∉ prev.map (fun t => t.id) →
        ((addTask form newId now prev).map (fun t => t.id)).Nodup) := by
  have k1 : KeepsOthers tid prev (toggleStar tid prev) :=
    keepsOthers_map _ tid prev (fun t => by split_ifs <;> rfl)
      (fun t ht => by simp [ht])
  have k2 : ∀ next, KeepsOthers tid prev (changeStatus tid next prev) := fun next =>
    keepsOthers_map _ tid prev (fun t => by split_ifs <;> rfl)
      (fun t ht => by simp [ht])
  have k3 : KeepsOthers tid prev (toggleDone tid prev) :=
    keepsOthers_map _ tid prev (fun t => by split_ifs <;> rfl)
      (fun t ht => by simp [ht])
  have k4 : ∀ draft : Task, draft.id = tid → KeepsOthers tid prev (saveEdit draft prev) :=
    fun draft hd => keepsOthers_map _ tid prev
      (fun t => by
        by_cases h : t.id = draft.id
        · simp [h]
        · simp [h])
      (fun t ht => by simp [hd, ht])
  have k5 : ∀ title newId, KeepsOthers tid prev (addSubtask tid title newId prev) :=
    fun title newId => keepsOthers_map _ tid prev (fun t => by split_ifs <;> rfl)
      (fun t ht => by simp [ht])
  have k6 : ∀ sid, KeepsOthers tid prev (toggleSubtask tid sid prev) :=
    fun sid => keepsOthers_map _ tid prev (fun t => by split_ifs <;> rfl)
      (fun t ht => by simp [ht])
  have k7 : ∀ sid, KeepsOthers tid prev (deleteSubtask tid sid prev) :=
    fun sid => keepsOthers_map _ tid prev (fun t => by split_ifs <;> rfl)
      (fun t ht => by simp [ht])
  have nd : ∀ r, KeepsOthers tid prev r → (r.map (fun t => t.id)).Nodup :=
    fun r hr => by rw [hr.1]; exact hnd
  refine ⟨k1, k2, k3, k4, k5, k6, k7, ⟨List.filter_sublist _, ?_⟩,
    ⟨List.filter_sublist _, ?_⟩, ⟨?_, ?_⟩, nd _ k1, fun next => nd _ (k2 next), nd _ k3,
    fun d hd => nd _ (k4 d hd), fun a b => nd _ (k5 a b), fun sid => nd _ (k6 sid),
    fun sid => nd _ (k7 sid), ?_, ?_, ?_, ?_⟩
  · intro t
    simp [deleteTask, List.mem_filter]
  · intro t
    simp [clearDone, List.mem_filter]
  · simp [markAllDone]
  · intro i h1 h2
    simp [markAllDone]
  · exact hnd.sublist ((List.filter_sublist _).map _)
  · exact hnd.sublist ((List.filter_sublist _).map _)
  · simp only [markAllDone, List.map_map]
    exact hnd
  · intro form newId now hnew
    unfold addTask
    simp only
    split_ifs
    · exact hnd
    · simp only [List.map_cons, List.nodup_cons]
      exact ⟨hnew, hnd⟩

/-- Witness for C25: actions aimed at the unknown id `zz`. -/
theorem unknown_id_noop_witness :
    toggleStar "zz" [sampleTask "a" .todo none 1000 1] = [sampleTask "a" .todo none 1000 1] :=
  (unknown_id_noop [sampleTask "a" .todo none 1000 1] "zz" (by decide)).1

/-- Witness for C24: starring `a` in a collection of two tasks. -/
theorem mutations_keep_ids_witness :
    KeepsOthers "a" [sampleTask "a" .todo none 1000 1, sampleTask "b" .todo none 2000 2]
      (toggleStar "a" [sampleTask "a" .todo none 1000 1, sampleTask "b" .todo none 2000 2]) :=
  (mutations_keep_ids [sampleTask "a" .todo none 1000 1, sampleTask "b" .todo none 2000 2]
    (by decide) "a").1

/-- C23, as stated, fails: dropping `c` onto `b` leaves the array in ascending
order, `a` (order 1) first; quick-add then gives the new task the order 2, one
above the first element, although the largest order present is 3. -/
theorem addTask_after_drop_not_max :
    dragDrop noonUTC "c" "b"
        [sampleTask "c" .todo none 3000 3, sampleTask "b" .todo none 2000 2,
         sampleTask "a" .todo none 1000 1]
      = [sampleTask "a" .todo none 1000 1, sampleTask "c" .todo none 3000 2,
         sampleTask "b" .todo none 2000 3]
    ∧ (addTask { title := " new ", newPrio := .medium, newDue := none, newTags := "" } "n" 4000
        [sampleTask "a" .todo none 1000 1, sampleTask "c" .todo none 3000 2,
         sampleTask "b" .todo none 2000 3]).map (fun t => (t.id, t.title, t.order))
      = [("n", "new", Half.ofInt 2), ("a", "a", Half.ofInt 1), ("c", "c", Half.ofInt 2),
         ("b", "b", Half.ofInt 3)] := by
  decide

/-- C23, amended: for a title that is non-empty after trimming, quick-add puts
one new task in front of the unchanged collection, with the trimmed title,
status todo, no star, no subtasks, and the order of the first array element
plus 1 (1 for the empty collection); that is the maximum order plus 1 whenever
the first element carries the maximum order. -/
theorem addTask_spec (form : QuickAdd) (newId : String) (now : Int) (prev : List Task)
    (ht : trim form.title ≠ "") :
    ∃ new : Task, addTask form newId now prev = new :: prev
      ∧ new.id = newId ∧ new.title = trim form.title ∧ new.status = .todo
      ∧ new.starred = false ∧ new.subtasks = []
      ∧ new.order = (match prev.head? with
          | some first => first.order.addOne
          | none => Half.ofInt 1)
      ∧ ((∀ first, prev.head? = some first → ∀ t ∈ prev, t.order.twice ≤ first.order.twice) →
          (∀ t ∈ prev, t.order.twice + 2 ≤ new.order.twice)
          ∧ (prev ≠ [] → ∃ t ∈ prev, new.order = t.order.addOne)) := by
  unfold addTask
  simp only [ht, if_false]
  refine ⟨_, rfl, rfl, rfl, rfl, rfl, rfl, ?_, ?_⟩
  · cases prev <;> rfl
  · intro hmax
    cases prev with
    | nil => simp
    | cons first rest =>
      refine ⟨?_, fun _ => ⟨first, List.mem_cons_self _ _, rfl⟩⟩
      intro t htm
      have := hmax first rfl t htm
      simp only [List.head?_cons, Half.addOne]
      omega

/-- Witness for C23: quick-add on a collection of one task. -/
theorem addTask_spec_witness :
    ∃ new : Task,
      addTask { title := " new ", newPrio := .medium, newDue := none, newTags := "" } "n" 4000
          [sampleTask "a" .todo none 1000 1] = new :: [sampleTask "a" .todo none 1000 1]
      ∧ new.title = "new" ∧ new.order = Half.ofInt 2 := by
  obtain ⟨new, h1, -, h2, -, -, -, h3, -⟩ :=
    addTask_spec { title := " new ", newPrio := .medium, newDue := none, newTags := "" } "n"
      4000 [sampleTask "a" .todo none 1000 1] (by decide)
  exact ⟨new, h1, h2.trans (by decide), h3.trans (by decide)⟩

/-- C26, the code at a failing input: every title is non-empty, the editor saves
a draft whose title is empty, and the stored task has the empty title; the
white-space quick-add on the same collection changes nothing. -/
theorem saveEdit_empty_title :
    (∀ t ∈ [sampleTask "a" .todo none 1000 1], t.title ≠ "")
    ∧ (saveEdit { sampleTask "a" .todo none 1000 1 with title := "" }
        [sampleTask "a" .todo none 1000 1]).map (fun t => t.title) = [""]
    ∧ addTask { title := "   ", newPrio := .medium, newDue := none, newTags := "" } "n" 4000
        [sampleTask "a" .todo none 1000 1] = [sampleTask "a" .todo none 1000 1] := by
  decide

/-- C27, the code at a failing input: `x` and `b` share the order 2 and `x` stands
before `b` in the array; dropping `a` onto `b` gives `a`, `x`, `b` the orders
1, 2, 3, so `x` of the same section lies between `a` and `b`. -/
theorem dragDrop_tie_not_adjacent :
    (dragDrop noonUTC "a" "b"
        [sampleTask "x" .todo none 3000 2, sampleTask "b" .todo none 2000 2,
         sampleTask "a" .todo none 1000 5]).map (fun t => (t.id, t.order))
      = [("a", Half.ofInt 1), ("x", Half.ofInt 2), ("b", Half.ofInt 3)]
    ∧ sectionKey noonUTC (sampleTask "x" .todo none 3000 2)
        = sectionKey noonUTC (sampleTask "b" .todo none 2000 2) := by
  decide

end Tasks

end Focusly

namespace Focusly

namespace Tasks

/-! ## Search and tag filter -/

/-- Membership in a filter that is applied only under a condition. -/
theorem mem_ite_filter (c : Prop) [Decidable c] (p : Task → Bool) (l : List Task) (t : Task) :
    t ∈ (if c then l.filter p else l) ↔ t ∈ l ∧ (c → p t = true) := by
  split_ifs with h <;> simp [List.mem_filter, h]

/-- The three tab filters together keep exactly the tasks of the tab. -/
theorem mem_status_filters (st : Status) (items : List Task) (t : Task) :
    t ∈ ((items.filter (fun t =>
      if st = .done then t.status = .done else t.status ≠ .done)).filter (fun t =>
      if st = .doing then t.status = .doing else true)).filter (fun t =>
      if st = .todo then t.status = .todo else true) ↔ t ∈ items ∧ t.status = st := by
  cases st <;> cases hs : t.status <;> simp [List.mem_filter, hs]

/-- Membership in the derived view: a task of the collection with the status of
the tab, the selected priority if one is selected, the selected tag unless the
tag filter is `"all"`, and, when the query has a character that is not white
space, a match of the lower-cased query in title, notes or a tag. -/
theorem mem_filtered (toLowerCase : String → String) (v : ViewState) (items : List Task)
    (t : Task) :
    t ∈ filtered toLowerCase v items ↔
      t ∈ items ∧ t.status = v.status
      ∧ (∀ p, v.prioFilter = some p → t.priority = p)
      ∧ (v.tagFilter ≠ "all" → v.tagFilter ∈ t.tags)
      ∧ (trimTruthy v.query = true →
          (includes (toLowerCase t.title) (toLowerCase v.query) = true
            ∨ includes (toLowerCase t.notes) (toLowerCase v.query) = true
            ∨ ∃ tag ∈ t.tags, includes (toLowerCase tag) (toLowerCase v.query) = true)) := by
  unfold filtered
  rw [(sortTasks_perm v.sortBy _).mem_iff]
  obtain ⟨q, st, pf, tf, sb, sc⟩ := v
  simp only [filterStage]
  rw [mem_ite_filter, mem_ite_filter, mem_ite_filter]
  have hc : ∀ (l : List String) (g : String), l.contains g = true ↔ g ∈ l := by
    intro l g
    simp
  cases pf with
  | none =>
    simp only [mem_status_filters]
    simp only [or_assoc, ne_eq, Bool.not_eq_true', decide_eq_true_eq, hc,
      List.any_eq_true, beq_iff_eq, exists_eq_right, Bool.or_eq_true, reduceCtorEq,
      false_implies, implies_true, true_and]
    constructor
    · rintro ⟨⟨⟨⟨h1, h2⟩, h3⟩, h4⟩, -⟩
      exact ⟨h1, h2, h3, h4⟩
    · rintro ⟨h1, h2, h3, h4⟩
      exact ⟨⟨⟨⟨h1, h2⟩, h3⟩, h4⟩, fun h => h.2 ∘ (fun hd => h2 ▸ hd)⟩
  | some p =>
    rw [List.mem_filter, mem_status_filters]
    simp only [or_assoc, ne_eq, Bool.not_eq_true', decide_eq_true_eq, hc,
      List.any_eq_true, beq_iff_eq, exists_eq_right, Bool.or_eq_true, reduceCtorEq,
      Option.some.injEq, forall_eq']
    constructor
    · rintro ⟨⟨⟨⟨⟨h1, h2⟩, h5⟩, h3⟩, h4⟩, -⟩
      exact ⟨h1, h2, h5, h3, h4⟩
    · rintro ⟨h1, h2, h5, h3, h4⟩
      exact ⟨⟨⟨⟨⟨h1, h2⟩, h5⟩, h3⟩, h4⟩, fun h => h.2 ∘ (fun hd => h2 ▸ hd)⟩


/-- C21, as stated, fails: for the query of one space the task titled `abc` is in
the view, although the query occurs neither in its title nor in its notes and
it has no tag. Title and query are ASCII text, on which `asciiLower` is the
library method. -/
theorem search_blank_ignored :
    sampleTask "abc" .todo none 1000 1
        ∈ filtered asciiLower { statusTab .todo .priority false with query := " " }
            [sampleTask "abc" .todo none 1000 1]
    ∧ includes (asciiLower (sampleTask "abc" .todo none 1000 1).title) (asciiLower " ") = false
    ∧ includes (asciiLower (sampleTask "abc" .todo none 1000 1).notes) (asciiLower " ") = false
    ∧ (sampleTask "abc" .todo none 1000 1).tags = [] := by
  decide

/-- C21, amended: a task that is in the view without search (it passes the
status, priority and tag filters) is in the view with query `q` if and only if
either `q` is empty or all white space, or the lower-cased `q`, white space at
its ends included, occurs in the lower-cased title, notes or some tag; the
lower-casing is the library method `toLowerCase`, and the statement holds for
every function in its place. -/
theorem search_filter (toLowerCase : String → String) (v : ViewState) (items : List Task)
    (t : Task) :
    (t ∈ filtered toLowerCase v items ↔
      t ∈ filtered toLowerCase { v with query := "" } items
      ∧ (trimTruthy v.query = true →
          (includes (toLowerCase t.title) (toLowerCase v.query) = true
            ∨ includes (toLowerCase t.notes) (toLowerCase v.query) = true
            ∨ ∃ tag ∈ t.tags, includes (toLowerCase tag) (toLowerCase v.query) = true)))
    ∧ (trimTruthy v.query = false →
        (t ∈ filtered toLowerCase v items ↔ t ∈ filtered toLowerCase { v with query := "" } items)) := by
  have hq : trimTruthy "" = false := by decide
  have key : t ∈ filtered toLowerCase v items ↔
      t ∈ filtered toLowerCase { v with query := "" } items
      ∧ (trimTruthy v.query = true →
          (includes (toLowerCase t.title) (toLowerCase v.query) = true
            ∨ includes (toLowerCase t.notes) (toLowerCase v.query) = true
            ∨ ∃ tag ∈ t.tags, includes (toLowerCase tag) (toLowerCase v.query) = true)) := by
    rw [mem_filtered, mem_filtered]
    simp only [hq, Bool.false_eq_true, false_implies, and_true]
    tauto
  refine ⟨key, fun h => ?_⟩
  rw [key]
  simp [h]

/-- Witness for C21: a query of one space does not narrow the view. -/
theorem search_filter_witness :
    sampleTask "abc" .todo none 1000 1
        ∈ filtered asciiLower { statusTab .todo .priority false with query := " " }
            [sampleTask "abc" .todo none 1000 1]
      ↔ sampleTask "abc" .todo none 1000 1
        ∈ filtered asciiLower { { statusTab .todo .priority false with query := " " } with query := "" }
            [sampleTask "abc" .todo none 1000 1] :=
  (search_filter asciiLower { statusTab .todo .priority false with query := " " }
    [sampleTask "abc" .todo none 1000 1] (sampleTask "abc" .todo none 1000 1)).2 (by decide)

/-- C22, as stated, fails: task `a` carries the tag `all`; with that tag selected
the view still holds task `b`, which does not carry it. -/
theorem tag_all_is_no_filter :
    sampleTask "b" .todo none 2000 2
        ∈ filtered asciiLower { statusTab .todo .priority false with tagFilter := "all" }
            [{ sampleTask "a" .todo none 1000 1 with tags := ["all"] },
             sampleTask "b" .todo none 2000 2]
    ∧ "all" ∈ ({ sampleTask "a" .todo none 1000 1 with tags := ["all"] } : Task).tags
    ∧ "all" ∉ (sampleTask "b" .todo none 2000 2).tags := by
  decide

/-- C22, amended: for a selected tag other than the word `all`, a tag that no
task carries gives the empty view, and the view holds exactly the tasks of the
unrestricted view that carry the tag; the tag filter value `all` gives the view
without tag restriction, also when tasks carry a tag spelled `all`. -/
theorem tag_filter (toLowerCase : String → String) (v : ViewState) (items : List Task)
    (g : String) :
    (g ≠ "all" → (∀ t ∈ items, g ∉ t.tags) → filtered toLowerCase { v with tagFilter := g } items = [])
    ∧ (∀ t, t ∈ filtered toLowerCase { v with tagFilter := g } items ↔
        t ∈ filtered toLowerCase { v with tagFilter := "all" } items ∧ (g ≠ "all" → g ∈ t.tags))
    ∧ (∀ t, t ∈ filtered toLowerCase { v with tagFilter := "all" } items ↔
        t ∈ items ∧ t.status = v.status
        ∧ (∀ p, v.prioFilter = some p → t.priority = p)
        ∧ (trimTruthy v.query = true →
          (includes (toLowerCase t.title) (toLowerCase v.query) = true
            ∨ includes (toLowerCase t.notes) (toLowerCase v.query) = true
            ∨ ∃ tag ∈ t.tags, includes (toLowerCase tag) (toLowerCase v.query) = true))) := by
  have key : ∀ t, t ∈ filtered toLowerCase { v with tagFilter := g } items ↔
      t ∈ filtered toLowerCase { v with tagFilter := "all" } items ∧ (g ≠ "all" → g ∈ t.tags) := by
    intro t
    rw [mem_filtered, mem_filtered]
    simp only [ne_eq, not_true_eq_false, false_implies, true_and]
    tauto
  refine ⟨?_, key, ?_⟩
  · intro hg hno
    rw [List.eq_nil_iff_forall_not_mem]
    intro t ht
    have h1 := (key t).mp ht
    have h2 := ((mem_filtered toLowerCase _ items t).mp h1.1).1
    exact hno t h2 (h1.2 hg)
  · intro t
    rw [mem_filtered]
    simp only [ne_eq, not_true_eq_false, false_implies, true_and]

/-- Witness for C22: the tag `work`, which no task carries, gives the empty
view. -/
theorem tag_filter_witness :
    filtered asciiLower { statusTab .todo .priority false with tagFilter := "work" }
        [sampleTask "a" .todo none 1000 1] = [] :=
  (tag_filter asciiLower (statusTab .todo .priority false)
    [sampleTask "a" .todo none 1000 1] "work").1
    (by decide) (by decide)

/-! ## The two renumberings -/

/-- In a strictly ascending list without repeated ids, one task has the smaller
order exactly when its id stands at the smaller index. -/
theorem lt_iff_indexOf_lt (L : List Task)
    (hs : L.Pairwise (fun x y => x.order.twice < y.order.twice))
    (hnd : (L.map (fun t => t.id)).Nodup) (x y : Task) (hx : x ∈ L) (hy : y ∈ L) :
    x.order.twice < y.order.twice ↔
      (L.map (fun t => t.id)).indexOf x.id < (L.map (fun t => t.id)).indexOf y.id := by
  induction L with
  | nil => exact absurd hx (List.not_mem_nil _)
  | cons h T ih =>
    rw [List.pairwise_cons] at hs
    rw [List.map_cons, List.nodup_cons] at hnd
    have hne : ∀ z ∈ T, h.id ≠ z.id := by
      intro z hz e
      exact hnd.1 (e ▸ List.mem_map_of_mem (fun t => t.id) hz)
    rcases List.mem_cons.mp hx with rfl | hxT <;> rcases List.mem_cons.mp hy with rfl | hyT
    · simp
    · have := hs.1 y hyT
      simp [List.indexOf_cons_ne _ (hne y hyT), this]
    · have := hs.1 x hxT
      simp only [List.map_cons, List.indexOf_cons_ne _ (hne x hxT), List.indexOf_cons_self]
      constructor
      · intro h2; omega
      · intro h2; omega
    · simp only [List.map_cons, List.indexOf_cons_ne _ (hne x hxT),
        List.indexOf_cons_ne _ (hne y hyT), Nat.succ_lt_succ_iff]
      exact ih hs.2 hnd.2 hxT hyT


/-- After a drop inside a section, the tasks of the section stand in the array in
the section sequence of the collection with the changed order of `a`. -/
theorem dragDrop_section_ids (c : Clock) (items : List Task) (a b : Task)
    (ha : a ∈ items) (hb : b ∈ items) (hnd : (items.map (fun t => t.id)).Nodup)
    (hid : a.id ≠ "") (hab : a.id ≠ b.id) (hsec : sectionKey c a = sectionKey c b) :
    ((dragDrop c a.id b.id items).filter
        (fun t => sectionKey c t = sectionKey c a)).map (fun t => t.id)
      = sectionSeq c (sectionKey c a) (items.map (setOrder a.id b.order.subHalf)) := by
  rw [dragDrop_eq c items a b ha hb hnd hid hab hsec, renumberFrom_section_ids]
  unfold sectionSeq
  rw [filter_insertionSort]

/-- The id of a task of the section is in the section sequence. -/
theorem mem_sectionSeq (c : Clock) (sec : Section) (l : List Task) (t : Task) (ht : t ∈ l)
    (hs : sectionKey c t = sec) : t.id ∈ sectionSeq c sec l := by
  unfold sectionSeq
  refine List.mem_map.mpr ⟨t, ?_, rfl⟩
  rw [(List.perm_insertionSort orderLE _).mem_iff]
  exact List.mem_filter.mpr ⟨ht, by simpa using hs⟩

/-- A task of the section in the scoped result has the order of its place in the
section sequence, counted from 1. -/
theorem mem_dropScoped (c : Clock) (a b : Task) (items : List Task) (x : Task)
    (hx : x ∈ dropScoped c a b items) (hs : sectionKey c x = sectionKey c a) :
    x.order = Half.ofInt
        ((sectionSeq c (sectionKey c a)
          (items.map (setOrder a.id b.order.subHalf))).indexOf x.id + 1)
    ∧ x.id ∈ sectionSeq c (sectionKey c a) (items.map (setOrder a.id b.order.subHalf)) := by
  unfold dropScoped renumberScoped at hx
  obtain ⟨t, ht, rfl⟩ := List.mem_map.mp hx
  by_cases h : sectionKey c t = sectionKey c a
  · refine ⟨?_, ?_⟩
    · simp [h]
    · simp only [h, if_true]
      exact mem_sectionSeq c _ _ t ht h
  · simp [h] at hs

/-- C28: for a drop of `a` onto `b` in one section (pairwise distinct ids), the
implemented renumbering and the section-scoped one return the same ids; each
gives the tasks of the section whole-number orders from 1 upwards, pairwise
distinct; and for two tasks of the section one has the smaller order in the
implemented result exactly when it has the smaller order in the scoped one. -/
theorem renumbering_agrees (c : Clock) (items : List Task) (a b : Task)
    (ha : a ∈ items) (hb : b ∈ items) (hnd : (items.map (fun t => t.id)).Nodup)
    (hid : a.id ≠ "") (hab : a.id ≠ b.id) (hsec : sectionKey c a = sectionKey c b) :
    ((dragDrop c a.id b.id items).map (fun t => t.id)).Perm
        ((dropScoped c a b items).map (fun t => t.id))
    ∧ (∀ x ∈ dragDrop c a.id b.id items, sectionKey c x = sectionKey c a →
        ∃ k : Int, 1 ≤ k ∧ x.order = Half.ofInt k)
    ∧ (∀ x ∈ dropScoped c a b items, sectionKey c x = sectionKey c a →
        ∃ k : Int, 1 ≤ k ∧ x.order = Half.ofInt k)
    ∧ (∀ x ∈ dragDrop c a.id b.id items, ∀ y ∈ dragDrop c a.id b.id items,
        sectionKey c x = sectionKey c a → sectionKey c y = sectionKey c a →
        x.id ≠ y.id → x.order ≠ y.order)
    ∧ (∀ x ∈ dropScoped c a b items, ∀ y ∈ dropScoped c a b items,
        sectionKey c x = sectionKey c a → sectionKey c y = sectionKey c a →
        x.id ≠ y.id → x.order ≠ y.order)
    ∧ (∀ x1 ∈ dragDrop c a.id b.id items, ∀ y1 ∈ dragDrop c a.id b.id items,
        ∀ x2 ∈ dropScoped c a b items, ∀ y2 ∈ dropScoped c a b items,
        sectionKey c x1 = sectionKey c a → sectionKey c y1 = sectionKey c a →
        sectionKey c x2 = sectionKey c a → sectionKey c y2 = sectionKey c a →
        x1.id = x2.id → y1.id = y2.id →
        (x1.order.twice < y1.order.twice ↔ x2.order.twice < y2.order.twice)) := by
  have hG := dragDrop_section_ids c items a b ha hb hnd hid hab hsec
  have e1 := dragDrop_eq c items a b ha hb hnd hid hab hsec
  have hord := renumberFrom_section_orders c (sectionKey c a)
    ((items.map (setOrder a.id b.order.subHalf)).insertionSort orderLE) 0
  rw [← e1] at hord
  obtain ⟨hperm1, hnd1, -, -⟩ := drop_frame c items a b ha hb hnd hid hab hsec
  have hndG : (((dragDrop c a.id b.id items).filter
      (fun t => sectionKey c t = sectionKey c a)).map (fun t => t.id)).Nodup :=
    hnd1.sublist ((List.filter_sublist _).map _)
  have hmemG : ∀ x ∈ dragDrop c a.id b.id items, sectionKey c x = sectionKey c a →
      x ∈ (dragDrop c a.id b.id items).filter (fun t => sectionKey c t = sectionKey c a) :=
    fun x hx hs => List.mem_filter.mpr ⟨hx, by simpa using hs⟩
  -- order against position, in the implemented result
  have hpos1 : ∀ x ∈ dragDrop c a.id b.id items, ∀ y ∈ dragDrop c a.id b.id items,
      sectionKey c x = sectionKey c a → sectionKey c y = sectionKey c a →
      (x.order.twice < y.order.twice ↔
        (sectionSeq c (sectionKey c a) (items.map (setOrder a.id b.order.subHalf))).indexOf x.id
          < (sectionSeq c (sectionKey c a)
              (items.map (setOrder a.id b.order.subHalf))).indexOf y.id) := by
    intro x hx y hy hsx hsy
    rw [← hG]
    exact lt_iff_indexOf_lt _ hord.1 hndG x y (hmemG x hx hsx) (hmemG y hy hsy)
  -- order against position, in the scoped result
  have hpos2 : ∀ x ∈ dropScoped c a b items, ∀ y ∈ dropScoped c a b items,
      sectionKey c x = sectionKey c a → sectionKey c y = sectionKey c a →
      (x.order.twice < y.order.twice ↔
        (sectionSeq c (sectionKey c a) (items.map (setOrder a.id b.order.subHalf))).indexOf x.id
          < (sectionSeq c (sectionKey c a)
              (items.map (setOrder a.id b.order.subHalf))).indexOf y.id) := by
    intro x hx y hy hsx hsy
    rw [(mem_dropScoped c a b items x hx hsx).1, (mem_dropScoped c a b items y hy hsy).1]
    simp only [Half.ofInt]
    omega
  have hinj : ∀ (i j : String),
      i ∈ sectionSeq c (sectionKey c a) (items.map (setOrder a.id b.order.subHalf)) →
      j ∈ sectionSeq c (sectionKey c a) (items.map (setOrder a.id b.order.subHalf)) →
      ¬ ((sectionSeq c (sectionKey c a)
            (items.map (setOrder a.id b.order.subHalf))).indexOf i
          < (sectionSeq c (sectionKey c a)
            (items.map (setOrder a.id b.order.subHalf))).indexOf j) →
      ¬ ((sectionSeq c (sectionKey c a)
            (items.map (setOrder a.id b.order.subHalf))).indexOf j
          < (sectionSeq c (sectionKey c a)
            (items.map (setOrder a.id b.order.subHalf))).indexOf i) → i = j := by
    intro i j hi hj h1 h2
    exact (List.indexOf_inj hi hj).mp (by omega)
  refine ⟨?_, ?_, ?_, ?_, ?_, ?_⟩
  · refine hperm1.trans (List.Perm.of_eq ?_)
    unfold dropScoped renumberScoped
    rw [List.map_map, List.map_map]
    apply List.map_congr_left
    intro t _
    simp only [Function.comp]
    split_ifs
    · exact ((setOrder_id a.id b.order.subHalf t).1).symm
    · exact ((setOrder_id a.id b.order.subHalf t).1).symm
  · intro x hx hs
    obtain ⟨k, hk1, hk2⟩ := hord.2 x (hmemG x hx hs)
    refine ⟨k, by simpa using hk1, ?_⟩
    cases hxo : x.order with
    | mk tw =>
      rw [hxo] at hk2
      simp only at hk2
      simp [Half.ofInt, hk2]
  · intro x hx hs
    exact ⟨_, by omega, (mem_dropScoped c a b items x hx hs).1⟩
  · intro x hx y hy hsx hsy hne heq
    apply hne
    have h1 := hpos1 x hx y hy hsx hsy
    have h2 := hpos1 y hy x hx hsy hsx
    rw [heq] at h1 h2
    have m1 : x.id ∈ sectionSeq c (sectionKey c a)
        (items.map (setOrder a.id b.order.subHalf)) := by
      rw [← hG]; exact List.mem_map_of_mem (fun t => t.id) (hmemG x hx hsx)
    have m2 : y.id ∈ sectionSeq c (sectionKey c a)
        (items.map (setOrder a.id b.order.subHalf)) := by
      rw [← hG]; exact List.mem_map_of_mem (fun t => t.id) (hmemG y hy hsy)
    exact hinj _ _ m1 m2 (fun h => by have := h1.mpr h; omega)
      (fun h => by have := h2.mpr h; omega)
  · intro x hx y hy hsx hsy hne heq
    apply hne
    have h1 := hpos2 x hx y hy hsx hsy
    have h2 := hpos2 y hy x hx hsy hsx
    rw [heq] at h1 h2
    exact hinj _ _ (mem_dropScoped c a b items x hx hsx).2 (mem_dropScoped c a b items y hy hsy).2
      (fun h => by have := h1.mpr h; omega) (fun h => by have := h2.mpr h; omega)
  · intro x1 hx1 y1 hy1 x2 hx2 y2 hy2 s1 s2 s3 s4 ex ey
    rw [hpos1 x1 hx1 y1 hy1 s1 s2, hpos2 x2 hx2 y2 hy2 s3 s4, ex, ey]

/-- Witness for C28: `b` dropped onto `a` beside a done task; both renumberings
return the same ids. -/
theorem renumbering_agrees_witness :
    ((dragDrop noonUTC (sampleTask "b" .todo none 3000 3).id (sampleTask "a" .todo none 2000 2).id
        [sampleTask "b" .todo none 3000 3, sampleTask "a" .todo none 2000 2,
         sampleTask "x" .done none 1000 1]).map (fun t => t.id)).Perm
      ((dropScoped noonUTC (sampleTask "b" .todo none 3000 3) (sampleTask "a" .todo none 2000 2)
        [sampleTask "b" .todo none 3000 3, sampleTask "a" .todo none 2000 2,
         sampleTask "x" .done none 1000 1]).map (fun t => t.id)) :=
  (renumbering_agrees noonUTC
    [sampleTask "b" .todo none 3000 3, sampleTask "a" .todo none 2000 2,
     sampleTask "x" .done none 1000 1]
    (sampleTask "b" .todo none 3000 3) (sampleTask "a" .todo none 2000 2)
    (by decide) (by decide) (by decide) (by decide) (by decide) (by decide)).1

end Tasks

end Focusly
